import Mathlib

/-! # Contract workflow chaincode (`contract_workflow.go`)

A shallow embedding of the chaincode handlers `Init`, `Invoke`, `AddContract`,
`IsValidContract`, `RegisterDocumentEvent`, `GetEventsForDocument` and `Query`.

Modelling conventions.

* A Go `string` is a Lean `String`: the characters are the code points of its valid
  UTF-8 sequences, and a byte `b` that is not part of a valid UTF-8 sequence (always
  `0x80 ≤ b`) is represented by the private-use character `U+10FF00 + b` (`strayByte`).
  The code points `U+10FF80 .. U+10FFFF` themselves are thereby outside the model.
  `encoding/json` replaces such bytes by `U+FFFD` when it writes a string and when it
  reads one (`toValidUTF8`).
* A Go `[]byte` is modelled by what `encoding/json` reads from it (`Bytes`): either the
  bytes are not a JSON document, or they are the text of a JSON document (`Json`).
  The lexical layer that turns the characters of an argument string into that reading
  is the parameter `scan : String → Bytes` of every handler that parses an argument.
* A Go slice is `Option (List α)`: `none` is the `nil` slice, `some []` the empty
  non-nil slice.  A Go map is `Option (List (String × β))` with pairwise distinct keys
  maintained by `entriesInsert`; `none` is the `nil` map.
* A handler returns an `Outcome` together with the ledger stub after the call.
  `Outcome.panic` is a Go run-time panic (failed type assertion, write to a nil map,
  index out of range).
* The ledger stub has a key-value state and two fault oracles telling on which keys
  `GetState` / `PutState` report an error.
* Console output (`fmt.Println`, `fmt.Printf`) is not modelled.
-/

namespace ContractWorkflow

/-! ## JSON documents and Go values -/

/-- A JSON document as read by the scanner of `encoding/json`. Object members are kept
in textual order, repeated member names included; a number is kept as its literal. -/
inductive Json where
  | null
  | bool (b : Bool)
  | num (lit : String)
  | str (s : String)
  | arr (xs : List Json)
  | obj (kvs : List (String × Json))

/-- A byte slice as `encoding/json` sees it. -/
inductive Bytes where
  | garbage
  | doc (j : Json)

/-- A Go slice: `none` is `nil`. -/
abbrev Slice (α : Type) := Option (List α)

/-- A Go map with string keys: `none` is the `nil` map. -/
abbrev GoMap (β : Type) := Option (List (String × β))

/-- Store `v` under `k` in the entries of a map, replacing the entry of `k` if any. -/
def entriesInsert {β : Type} (k : String) (v : β) : List (String × β) → List (String × β)
  | [] => [(k, v)]
  | (k1, v1) :: rest =>
    if k1 = k then (k, v) :: rest else (k1, v1) :: entriesInsert k v rest

/-- The value stored under `k` in the entries of a map. -/
def entriesLookup {β : Type} (k : String) : List (String × β) → Option β
  | [] => none
  | (k1, v1) :: rest => if k1 = k then some v1 else entriesLookup k rest

/-- The comma-ok read `v, ok := m[k]`; reading a `nil` map finds nothing. -/
def GoMap.lookup {β : Type} (m : GoMap β) (k : String) : Option β :=
  match m with
  | none => none
  | some l => entriesLookup k l

/-- The assignment `m[k] = v`; `none` is the panic of writing to a `nil` map. -/
def GoMap.assign {β : Type} (m : GoMap β) (k : String) (v : β) : Option (GoMap β) :=
  match m with
  | none => none
  | some l => some (some (entriesInsert k v l))

/-- The builtin `append(s, x)`. -/
def sliceAppend {α : Type} (s : Slice α) (x : α) : Slice α :=
  match s with
  | none => some [x]
  | some l => some (l ++ [x])

/-- The elements a `range` loop visits. -/
def Slice.elems {α : Type} (s : Slice α) : List α :=
  match s with
  | none => []
  | some l => l

/-! ## The data model of the chaincode -/

def WORKFLOW_TEMPLATE_KEY : String := "WORKFLOW_TEMPLATE_KEY"

def MYVERSION : String := "1.0.0"

structure ContractState where
  Version : String
  WorkflowTemplateCC : String
  deriving DecidableEq, Repr

structure Event where
  User : String
  Role : String
  Organization : String
  DocId : String
  DocType : String
  TimeStamp : String
  EventType : String
  DocHash : String
  DocUrl : String
  deriving DecidableEq, Repr

structure ActionId where
  Id : String
  deriving DecidableEq, Repr

structure DocType where
  Id : String
  Name : String
  Type_ : String
  Version : String
  AllowedActTypeList : Slice ActionId
  deriving DecidableEq, Repr

structure Actor where
  Id : String
  Name : String
  deriving DecidableEq, Repr

structure ActType where
  Id : String
  Name : String
  Type_ : String
  deriving DecidableEq, Repr

structure Action where
  Id : String
  DocTypeId : String
  ActTypeId : String
  ActorId : String
  deriving DecidableEq, Repr

structure DependencyInfo where
  Id : String
  DependencyList : Slice ActionId
  deriving DecidableEq, Repr

structure WorkflowIO where
  Id : String
  Name : String
  Version : String
  Desc : String
  ActTypeList : Slice ActType
  DocTypeList : Slice DocType
  ActionList : Slice Action
  ActorList : Slice Actor
  AclList : Slice Action
  DependencyList : Slice DependencyInfo
  deriving DecidableEq, Repr

structure Contract where
  WorkflowId : String
  ContractName : String
  ContractId : String
  Documents : Slice String
  Events : GoMap (Slice Event)
  ParticipantRoleToInstanceMapping : GoMap String
  DocTypeToDocIdMapping : GoMap String
  deriving DecidableEq, Repr

/-- The zero value of `ContractState`. -/
def ContractState.zero : ContractState := ⟨"", ""⟩

/-- The zero value of `Event`. -/
def Event.zero : Event := ⟨"", "", "", "", "", "", "", "", ""⟩

/-- The zero value of `ActionId`. -/
def ActionId.zero : ActionId := ⟨""⟩

/-- The zero value of `DocType`. -/
def DocType.zero : DocType := ⟨"", "", "", "", none⟩

/-- The zero value of `Actor`. -/
def Actor.zero : Actor := ⟨"", ""⟩

/-- The zero value of `ActType`. -/
def ActType.zero : ActType := ⟨"", "", ""⟩

/-- The zero value of `Action`. -/
def Action.zero : Action := ⟨"", "", "", ""⟩

/-- The zero value of `DependencyInfo`. -/
def DependencyInfo.zero : DependencyInfo := ⟨"", none⟩

/-- The zero value of `WorkflowIO`. -/
def WorkflowIO.zero : WorkflowIO := ⟨"", "", "", "", none, none, none, none, none, none⟩

/-- The zero value of `Contract` (`var contract Contract`, `new(Contract)`). -/
def Contract.zero : Contract := ⟨"", "", "", none, none, none, none⟩

/-! ## `encoding/json`: decoding a document into a Go value

`json.Unmarshal(data, &v)` fails when `data` is not a JSON document and otherwise
decodes the document into `v`.  The decoders below follow the rules of the library:
`null` leaves a string or struct target as it is and makes a slice or map target `nil`;
a JSON value of the wrong kind is an error; the members of an object are handled in
textual order; a member is matched to a struct field by name without regard to case;
members that match no field are skipped; a map target receives every member, created
when it is `nil`; a string literal and the name of a map member are read coerced to
valid UTF-8 (the name of a struct member is compared as written: the coercion does not
change whether it matches a field, all field names being ASCII).  Every caller in this
program drops the target when an error is returned, so a decoder stops at the first
error.  Two points are abstracted: the text of an error of the library is represented
by one fixed string per kind of error, and the elements of a slice are always decoded
into fresh values (the library decodes a repeated member of slice type into the
elements of the earlier value). -/

/-- The text standing for a syntax error of `json.Unmarshal`. -/
def jsonSyntaxError : String := "json: invalid JSON input"

/-- The text standing for an `UnmarshalTypeError`. -/
def jsonTypeError : String := "json: cannot unmarshal value into Go value"

/-- Case folding of one character of a member name (ASCII letters, and the two
non-ASCII characters that fold to `s` and `k`). -/
def foldChar (c : Char) : Char :=
  if c = Char.ofNat 0x17f then 's' else if c = Char.ofNat 0x212a then 'k' else c.toLower

/-- Case folding of a member name. -/
def foldName (s : String) : String := String.mk (s.data.map foldChar)

/-- The character that stands for the byte `b` of a Go string when `b` is not part of a
valid UTF-8 sequence. -/
def strayByte (b : Nat) : Char := Char.ofNat (0x10FF00 + b)

/-- What `encoding/json` makes of one character: a stray byte becomes `U+FFFD`. -/
def cleanChar (c : Char) : Char :=
  if 0x10FF80 ≤ c.toNat then Char.ofNat 0xFFFD else c

/-- The coercion of a string to valid UTF-8 that `encoding/json` applies to every
string it writes (`json.Marshal`) and to every string literal and member name it reads
(`json.Unmarshal`): each byte that is not part of a valid UTF-8 sequence is replaced by
`U+FFFD`. -/
def toValidUTF8 (s : String) : String := String.mk (s.data.map cleanChar)

/-- Decode into a `string` target holding `cur`. -/
def decString (cur : String) : Json → Except String String
  | .str s => .ok (toValidUTF8 s)
  | .null => .ok cur
  | _ => .error jsonTypeError

/-- Decode the elements of an array one by one. -/
def decElems {α : Type} (dec : Json → Except String α) : List Json → Except String (List α)
  | [] => .ok []
  | x :: xs =>
    match dec x with
    | .error e => .error e
    | .ok a =>
      match decElems dec xs with
      | .error e => .error e
      | .ok rest => .ok (a :: rest)

/-- Decode into a slice target holding `cur`: an array gives a new slice, `null` the
`nil` slice. -/
def decSlice {α : Type} (dec : Json → Except String α) (_cur : Slice α) :
    Json → Except String (Slice α)
  | .arr xs =>
    match decElems dec xs with
    | .error e => .error e
    | .ok l => .ok (some l)
  | .null => .ok none
  | _ => .error jsonTypeError

/-- Decode the members of an object into the entries of a map. -/
def decEntries {β : Type} (dec : Json → Except String β) :
    List (String × Json) → List (String × β) → Except String (List (String × β))
  | [], acc => .ok acc
  | (k, v) :: rest, acc =>
    match dec v with
    | .error e => .error e
    | .ok b => decEntries dec rest (entriesInsert (toValidUTF8 k) b acc)

/-- Decode into a map target holding `cur`: the members of an object are added to the
map, `null` gives the `nil` map. -/
def decMap {β : Type} (dec : Json → Except String β) (cur : GoMap β) :
    Json → Except String (GoMap β)
  | .obj kvs =>
    match decEntries dec kvs (cur.getD []) with
    | .error e => .error e
    | .ok l => .ok (some l)
  | .null => .ok none
  | _ => .error jsonTypeError

/-- Decode the members of an object into a struct, `setField` storing one member. -/
def decMembers {σ : Type} (setField : String → Json → σ → Except String σ) :
    List (String × Json) → σ → Except String σ
  | [], s => .ok s
  | (k, v) :: rest, s =>
    match setField (foldName k) v s with
    | .error e => .error e
    | .ok s1 => decMembers setField rest s1

/-- Decode into a struct target holding `cur`. -/
def decStruct {σ : Type} (setField : String → Json → σ → Except String σ) (cur : σ) :
    Json → Except String σ
  | .obj kvs => decMembers setField kvs cur
  | .null => .ok cur
  | _ => .error jsonTypeError

/-- Store the result of decoding a field, or pass the error on. -/
def withField {α σ : Type} (r : Except String α) (set : α → σ) : Except String σ :=
  match r with
  | .error e => .error e
  | .ok a => .ok (set a)

def ContractState.setField (k : String) (v : Json) (s : ContractState) :
    Except String ContractState :=
  if k = "version" then withField (decString s.Version v) (fun x => { s with Version := x })
  else if k = "workflowtemplatecc" then
    withField (decString s.WorkflowTemplateCC v) (fun x => { s with WorkflowTemplateCC := x })
  else .ok s

def Event.setField (k : String) (v : Json) (e : Event) : Except String Event :=
  if k = "user" then withField (decString e.User v) (fun x => { e with User := x })
  else if k = "role" then withField (decString e.Role v) (fun x => { e with Role := x })
  else if k = "organization" then
    withField (decString e.Organization v) (fun x => { e with Organization := x })
  else if k = "docid" then withField (decString e.DocId v) (fun x => { e with DocId := x })
  else if k = "doctype" then withField (decString e.DocType v) (fun x => { e with DocType := x })
  else if k = "timestamp" then
    withField (decString e.TimeStamp v) (fun x => { e with TimeStamp := x })
  else if k = "eventtype" then
    withField (decString e.EventType v) (fun x => { e with EventType := x })
  else if k = "dochash" then withField (decString e.DocHash v) (fun x => { e with DocHash := x })
  else if k = "docurl" then withField (decString e.DocUrl v) (fun x => { e with DocUrl := x })
  else .ok e

def ActionId.setField (k : String) (v : Json) (a : ActionId) : Except String ActionId :=
  if k = "id" then withField (decString a.Id v) (fun x => { a with Id := x })
  else .ok a

def DocType.setField (k : String) (v : Json) (d : DocType) : Except String DocType :=
  if k = "id" then withField (decString d.Id v) (fun x => { d with Id := x })
  else if k = "name" then withField (decString d.Name v) (fun x => { d with Name := x })
  else if k = "type" then withField (decString d.Type_ v) (fun x => { d with Type_ := x })
  else if k = "version" then withField (decString d.Version v) (fun x => { d with Version := x })
  else if k = "allowedacttypelist" then
    withField (decSlice (decStruct ActionId.setField ActionId.zero) d.AllowedActTypeList v)
      (fun x => { d with AllowedActTypeList := x })
  else .ok d

def Actor.setField (k : String) (v : Json) (a : Actor) : Except String Actor :=
  if k = "id" then withField (decString a.Id v) (fun x => { a with Id := x })
  else if k = "name" then withField (decString a.Name v) (fun x => { a with Name := x })
  else .ok a

def ActType.setField (k : String) (v : Json) (a : ActType) : Except String ActType :=
  if k = "id" then withField (decString a.Id v) (fun x => { a with Id := x })
  else if k = "name" then withField (decString a.Name v) (fun x => { a with Name := x })
  else if k = "type" then withField (decString a.Type_ v) (fun x => { a with Type_ := x })
  else .ok a

def Action.setField (k : String) (v : Json) (a : Action) : Except String Action :=
  if k = "id" then withField (decString a.Id v) (fun x => { a with Id := x })
  else if k = "doctypeid" then
    withField (decString a.DocTypeId v) (fun x => { a with DocTypeId := x })
  else if k = "acttypeid" then
    withField (decString a.ActTypeId v) (fun x => { a with ActTypeId := x })
  else if k = "actorid" then withField (decString a.ActorId v) (fun x => { a with ActorId := x })
  else .ok a

def DependencyInfo.setField (k : String) (v : Json) (d : DependencyInfo) :
    Except String DependencyInfo :=
  if k = "id" then withField (decString d.Id v) (fun x => { d with Id := x })
  else if k = "dependencyinfo" then
    withField (decSlice (decStruct ActionId.setField ActionId.zero) d.DependencyList v)
      (fun x => { d with DependencyList := x })
  else .ok d

def WorkflowIO.setField (k : String) (v : Json) (w : WorkflowIO) : Except String WorkflowIO :=
  if k = "id" then withField (decString w.Id v) (fun x => { w with Id := x })
  else if k = "name" then withField (decString w.Name v) (fun x => { w with Name := x })
  else if k = "version" then withField (decString w.Version v) (fun x => { w with Version := x })
  else if k = "desc" then withField (decString w.Desc v) (fun x => { w with Desc := x })
  else if k = "acttypelist" then
    withField (decSlice (decStruct ActType.setField ActType.zero) w.ActTypeList v)
      (fun x => { w with ActTypeList := x })
  else if k = "doctypelist" then
    withField (decSlice (decStruct DocType.setField DocType.zero) w.DocTypeList v)
      (fun x => { w with DocTypeList := x })
  else if k = "actionlist" then
    withField (decSlice (decStruct Action.setField Action.zero) w.ActionList v)
      (fun x => { w with ActionList := x })
  else if k = "actorlist" then
    withField (decSlice (decStruct Actor.setField Actor.zero) w.ActorList v)
      (fun x => { w with ActorList := x })
  else if k = "acllist" then
    withField (decSlice (decStruct Action.setField Action.zero) w.AclList v)
      (fun x => { w with AclList := x })
  else if k = "dependencylist" then
    withField (decSlice (decStruct DependencyInfo.setField DependencyInfo.zero) w.DependencyList v)
      (fun x => { w with DependencyList := x })
  else .ok w

/-- Decode into a `[]Event` target holding `nil`. -/
def decEvents : Json → Except String (Slice Event) :=
  decSlice (decStruct Event.setField Event.zero) none

def Contract.setField (k : String) (v : Json) (c : Contract) : Except String Contract :=
  if k = "workflowid" then
    withField (decString c.WorkflowId v) (fun x => { c with WorkflowId := x })
  else if k = "contractname" then
    withField (decString c.ContractName v) (fun x => { c with ContractName := x })
  else if k = "contractid" then
    withField (decString c.ContractId v) (fun x => { c with ContractId := x })
  else if k = "documents" then
    withField (decSlice (decString "") c.Documents v) (fun x => { c with Documents := x })
  else if k = "events" then
    withField (decMap decEvents c.Events v) (fun x => { c with Events := x })
  else if k = "participants" then
    withField (decMap (decString "") c.ParticipantRoleToInstanceMapping v)
      (fun x => { c with ParticipantRoleToInstanceMapping := x })
  else if k = "doctypetodocidmapping" then
    withField (decMap (decString "") c.DocTypeToDocIdMapping v)
      (fun x => { c with DocTypeToDocIdMapping := x })
  else .ok c

/-- Unmarshal into a fresh value of a struct type. -/
def jsonUnmarshal {σ : Type} (setField : String → Json → σ → Except String σ) (zero : σ) :
    Bytes → Except String σ
  | .garbage => .error jsonSyntaxError
  | .doc j => decStruct setField zero j

/-- `json.Unmarshal(data, &stateArg)` with `var stateArg ContractState`. -/
def jsonUnmarshalContractState : Bytes → Except String ContractState :=
  jsonUnmarshal ContractState.setField ContractState.zero

/-- `json.Unmarshal(data, &docEvent)` with `var docEvent Event`. -/
def jsonUnmarshalEvent : Bytes → Except String Event :=
  jsonUnmarshal Event.setField Event.zero

/-- `json.Unmarshal(data, &wfIO)` with `var wfIO WorkflowIO`. -/
def jsonUnmarshalWorkflowIO : Bytes → Except String WorkflowIO :=
  jsonUnmarshal WorkflowIO.setField WorkflowIO.zero

/-- `json.Unmarshal(data, &contract)` with `var contract Contract`. -/
def jsonUnmarshalContract : Bytes → Except String Contract :=
  jsonUnmarshal Contract.setField Contract.zero

/-- `json.Unmarshal(data, &f)` with `var f interface{}`: the decoded value is the
document itself, `Json.null` being the `nil` interface. -/
def jsonUnmarshalAny : Bytes → Except String Json
  | .garbage => .error jsonSyntaxError
  | .doc j => .ok j

/-! ## `encoding/json`: encoding a Go value

The member names are those of the struct tags; a tag that is not of the form
`json:"name"` is ignored by the library and the member takes the name of the field.
Every string and every map key is written coerced to valid UTF-8.  The members of a
map are kept in the order of the entries (the library writes them sorted by key; no
reader in this program depends on the order of members). -/

/-- The encoding of a Go string. -/
def encString (s : String) : Json := .str (toValidUTF8 s)

def encSlice {α : Type} (enc : α → Json) : Slice α → Json
  | none => .null
  | some l => .arr (l.map enc)

def encMap {β : Type} (enc : β → Json) : GoMap β → Json
  | none => .null
  | some l => .obj (l.map (fun kv => (toValidUTF8 kv.1, enc kv.2)))

def ContractState.toJson (s : ContractState) : Json :=
  .obj [("version", encString s.Version),
    ("workflowTemplateCC", encString s.WorkflowTemplateCC)]

def Event.toJson (e : Event) : Json :=
  .obj [("user", encString e.User), ("role", encString e.Role),
    ("organization", encString e.Organization), ("DocId", encString e.DocId),
    ("DocType", encString e.DocType), ("timeStamp", encString e.TimeStamp),
    ("eventType", encString e.EventType), ("docHash", encString e.DocHash),
    ("DocUrl", encString e.DocUrl)]

def Contract.toJson (c : Contract) : Json :=
  .obj [("WorkflowId", encString c.WorkflowId), ("contractName", encString c.ContractName),
    ("ContractId", encString c.ContractId), ("Documents", encSlice encString c.Documents),
    ("events", encMap (encSlice Event.toJson) c.Events),
    ("participants", encMap encString c.ParticipantRoleToInstanceMapping),
    ("DocTypeToDocIdMapping", encMap encString c.DocTypeToDocIdMapping)]

/-- The bytes `json.Marshal` returns for a value encoded as `j`. -/
def jsonMarshal (j : Json) : Bytes := .doc j

/-! ## The ledger stub -/

/-- The ledger as a handler sees it through `shim.ChaincodeStub`: the stored values,
and for each key whether `GetState` / `PutState` report an error (with its text). -/
structure ChaincodeStub where
  state : String → Option Bytes
  getFault : String → Option String
  putFault : String → Option String

/-- The read `stub.GetState(key)`: `nil` bytes when nothing is stored under `key`. -/
def ChaincodeStub.GetState (stub : ChaincodeStub) (key : String) :
    Except String (Option Bytes) :=
  match stub.getFault key with
  | some e => .error e
  | none => .ok (stub.state key)

/-- The ledger with `value` stored under `key`. -/
def ChaincodeStub.store (stub : ChaincodeStub) (key : String) (value : Bytes) :
    ChaincodeStub :=
  { stub with state := fun k => if k = key then some value else stub.state k }

/-- The write `stub.PutState(key, value)`; a failed write stores nothing. -/
def ChaincodeStub.PutState (stub : ChaincodeStub) (key : String) (value : Bytes) :
    Except String ChaincodeStub :=
  match stub.putFault key with
  | some e => .error e
  | none => .ok (stub.store key value)

/-- The bytes handed to `json.Unmarshal`: `nil` bytes are not a JSON document. -/
def bytesOrNil : Option Bytes → Bytes
  | none => .garbage
  | some b => b

/-- What a handler of type `([]byte, error)` does: return bytes (possibly `nil`) with a
`nil` error, return `nil` bytes with an error, or panic. -/
inductive Outcome where
  | ok (payload : Option Bytes)
  | fail (err : String)
  | panic

/-! ## The handlers -/

/-- Chaincode initialization code. -/
def Init (scan : String → Bytes) (stub : ChaincodeStub) (_function : String)
    (args : List String) : Outcome × ChaincodeStub :=
  match args with
  | [arg] =>
    match jsonUnmarshalContractState (scan arg) with
    | .error err => (.fail ("Version argument unmarshal failed: " ++ err), stub)
    | .ok stateArg =>
      if stateArg.Version ≠ MYVERSION then
        (.fail ("Contract version " ++ MYVERSION ++ " must match version argument: "
          ++ stateArg.Version), stub)
      else if stateArg.WorkflowTemplateCC = "" then
        (.fail "Workflow Template chaincode id is mandatory", stub)
      else
        let contractStateJSON := jsonMarshal stateArg.toJson
        match stub.PutState WORKFLOW_TEMPLATE_KEY contractStateJSON with
        | .error err => (.fail ("Contract state failed PUT to ledger: " ++ err), stub)
        | .ok stub1 => (.ok none, stub1)
  | _ =>
    (.fail ("init expects one argument, a JSON string with tagged version string and "
      ++ "chaincode uuid for the workflow template chaincode"), stub)

/-- The test helper `GetSampleWfIOJson`: the bytes stored under the template key. -/
def GetSampleWfIOJson (stub : ChaincodeStub) : Except String (Option Bytes) :=
  match stub.GetState WORKFLOW_TEMPLATE_KEY with
  | .error _ => .error "Unable to fetch WfIOJsonBytes"
  | .ok WfIOJsonBytes => .ok WfIOJsonBytes

/-- The loop of `IsValidContract` over the actor list: every role has to have an
instance mapping; the first role without one ends the loop with an error. -/
def IsValidContract.checkActors (roleToInstanceMapping : GoMap String) :
    List Actor → Bool × Option String
  | [] => (true, none)
  | actor :: rest =>
    let roleName := actor.Name
    match roleToInstanceMapping.lookup roleName with
    | some _ => IsValidContract.checkActors roleToInstanceMapping rest
    | none => (false, some (roleName ++ " is missing in the mapping"))

/-- The check `IsValidContract` of an input contract against the workflow
specification; the result is the pair `(bool, error)`. -/
def IsValidContract (stub : ChaincodeStub) (contract : Contract) : Bool × Option String :=
  let roleToInstanceMapping := contract.ParticipantRoleToInstanceMapping
  match GetSampleWfIOJson stub with
  | .error err => (false, some err)
  | .ok wfIOBytes =>
    match jsonUnmarshalWorkflowIO (bytesOrNil wfIOBytes) with
    | .error err => (false, some err)
    | .ok wfIO =>
      let actorList := wfIO.ActorList
      IsValidContract.checkActors roleToInstanceMapping actorList.elems

/-- The type assertion `f.(map[string]interface{})`: the entries of the map when the
decoded value is an object (one entry per member name as the decoder reads it, the
last member of a name giving its value), `none` (a panic) otherwise. -/
def assertMap : Json → Option (List (String × Json))
  | .obj kvs => some (kvs.foldl (fun acc kv => entriesInsert (toValidUTF8 kv.1) kv.2 acc) [])
  | _ => none

/-- The loop of `AddContract` over the decoded mapping: `v.(string)` panics (`none`)
on a value that is not a string, otherwise the entry is stored in `participants` (the
string is the one the decoder has read from the literal). -/
def AddContract.collect :
    List (String × Json) → List (String × String) → Option (List (String × String))
  | [], participants => some participants
  | (k, .str v1) :: rest, participants =>
    AddContract.collect rest (entriesInsert k (toValidUTF8 v1) participants)
  | _ :: _, _ => none

/-- The value of `f` after `json.Unmarshal([]byte(roleToInstanceMappingJson), &f)`:
the error is only printed, and `f` then still holds `nil`. -/
def AddContract.decoded (b : Bytes) : Json :=
  match jsonUnmarshalAny b with
  | .error _ => .null
  | .ok j => j

/-- The contract `AddContract` builds: `new(Contract)` with the four fields set from
the arguments and the two maps made empty. -/
def AddContract.newContract (workflowId contractId contractName : String)
    (participants : List (String × String)) : Contract :=
  { Contract.zero with
    WorkflowId := workflowId
    ContractId := contractId
    ContractName := contractName
    ParticipantRoleToInstanceMapping := some participants
    Events := some []
    DocTypeToDocIdMapping := some [] }

/-- Registers a new contract in the blockchain;
`args = [workflowId, contractId, contractName, roleToInstanceMappingJson]`. -/
def AddContract (scan : String → Bytes) (stub : ChaincodeStub) (args : List String) :
    Outcome × ChaincodeStub :=
  match args with
  | [workflowId, contractId, contractName, roleToInstanceMappingJson] =>
    match stub.GetState contractId with
    | .error _ => (.fail "Error in getting State from Ledger", stub)
    | .ok (some _) => (.fail "ContractId already exists", stub)
    | .ok none =>
      let f := AddContract.decoded (scan roleToInstanceMappingJson)
      match assertMap f with
      | none => (.panic, stub)
      | some mapping =>
        match AddContract.collect mapping [] with
        | none => (.panic, stub)
        | some participants =>
          let contract := AddContract.newContract workflowId contractId contractName participants
          match IsValidContract stub contract with
          | (_, some errValid) => (.fail errValid, stub)
          | (_, none) =>
            let contractJson := jsonMarshal contract.toJson
            match stub.PutState contractId contractJson with
            | .error err =>
              (.fail ("Failed PUT to ledger while adding Contract: " ++ err), stub)
            | .ok stub1 => (.ok none, stub1)
  | _ => (.fail "Incorrect number of arguments. Expecting 4", stub)

/-- The branch `if eventType == "Issue"` of `RegisterDocumentEvent`; `none` is the
panic of writing to a `nil` `DocTypeToDocIdMapping`. -/
def RegisterDocumentEvent.issue (contract : Contract) (eventType docType docId : String) :
    Option Contract :=
  if eventType = "Issue" then
    let documents := sliceAppend contract.Documents docId
    match contract.DocTypeToDocIdMapping.assign docType docId with
    | none => none
    | some mapping =>
      some { contract with Documents := documents, DocTypeToDocIdMapping := mapping }
  else some contract

/-- The read `contract.Events[docId]`: the `nil` slice when there is no entry. -/
def Contract.eventsOf (contract : Contract) (docId : String) : Slice Event :=
  match contract.Events.lookup docId with
  | none => none
  | some events => events

/-- The changes `RegisterDocumentEvent` makes to the loaded contract: the `Issue`
branch, then `contract.Events[docId] = append(contract.Events[docId], docEvent)`;
`none` is the panic of writing to a `nil` map. -/
def RegisterDocumentEvent.update (contract : Contract) (docId : String) (docEvent : Event) :
    Option Contract :=
  let docType := docEvent.DocType
  let eventType := docEvent.EventType
  match RegisterDocumentEvent.issue contract eventType docType docId with
  | none => none
  | some contract1 =>
    match contract1.Events.assign docId (sliceAppend (contract1.eventsOf docId) docEvent) with
    | none => none
    | some events => some { contract1 with Events := events }

/-- Records the event `args[2]` for document `args[1]` of contract `args[0]`. -/
def RegisterDocumentEvent (scan : String → Bytes) (stub : ChaincodeStub)
    (args : List String) : Outcome × ChaincodeStub :=
  match args with
  | [contractId, docId, eventJson] =>
    match jsonUnmarshalEvent (scan eventJson) with
    | .error _ => (.fail "document event Json: Unmarshaling error", stub)
    | .ok docEvent =>
      let eDocId := docEvent.DocId
      if eDocId ≠ docId then
        (.fail "docId: DocIds in eventJson and args array dont match", stub)
      else
        match stub.GetState contractId with
        | .error _ => (.fail "Error in getting State from Ledger", stub)
        | .ok none => (.fail "ContractId: Could not get state from ledger", stub)
        | .ok (some contractBytes) =>
          match jsonUnmarshalContract contractBytes with
          | .error _ => (.fail "Contract: Unmarshaling error", stub)
          | .ok contract =>
            match RegisterDocumentEvent.update contract docId docEvent with
            | none => (.panic, stub)
            | some contract2 =>
              let contractJson := jsonMarshal contract2.toJson
              match stub.PutState contractId contractJson with
              | .error err =>
                (.fail ("Failed PUT to ledger while adding Contract: " ++ err), stub)
              | .ok stub1 => (.ok none, stub1)
  | _ => (.fail "Incorrect number of arguments. Expecting 3", stub)

/-- Records a signature event (`AddSignature`). -/
def AddSignature (scan : String → Bytes) (stub : ChaincodeStub) (args : List String) :
    Outcome × ChaincodeStub :=
  RegisterDocumentEvent scan stub args

/-- Records the issuance of a document (`IssueDocument`). -/
def IssueDocument (scan : String → Bytes) (stub : ChaincodeStub) (args : List String) :
    Outcome × ChaincodeStub :=
  RegisterDocumentEvent scan stub args

/-- Records a read event (`ReadDocument`). -/
def ReadDocument (scan : String → Bytes) (stub : ChaincodeStub) (args : List String) :
    Outcome × ChaincodeStub :=
  RegisterDocumentEvent scan stub args

/-- The stub `AddCert`. -/
def AddCert (stub : ChaincodeStub) (_args : List String) : Outcome × ChaincodeStub :=
  (.ok none, stub)

/-- The events recorded for document `args[1]` of contract `args[0]`. -/
def GetEventsForDocument (stub : ChaincodeStub) (args : List String) :
    Outcome × ChaincodeStub :=
  match args with
  | [contractId, docId] =>
    match stub.GetState contractId with
    | .error _ => (.fail "Error in getting State from Ledger", stub)
    | .ok (some contractBytes) =>
      match jsonUnmarshalContract contractBytes with
      | .error _ => (.fail "getEventsForDocument: Unmarshaling error of ContractBytes", stub)
      | .ok contract =>
        let events := contract.eventsOf docId
        match events with
        | none => (.fail "docId: Does not exist for contract", stub)
        | some _ =>
          let eventsBytes := jsonMarshal (encSlice Event.toJson events)
          (.ok (some eventsBytes), stub)
    | .ok none => (.fail "Error in getting ContractBytes from Ledger", stub)
  | _ => (.fail "args: Incorrect number of arguments.Expecting 2", stub)

/-- Query chaincode: the events of a document, or the stored contract `args[0]`. -/
def Query (stub : ChaincodeStub) (function : String) (args : List String) :
    Outcome × ChaincodeStub :=
  if function = "getEventsForDocument" then GetEventsForDocument stub args
  else
    match args with
    | [] => (.panic, stub)
    | contractId :: _ =>
      match stub.GetState contractId with
      | .error _ => (.fail "Error in getting State from Ledger", stub)
      | .ok (some contractBytes) =>
        match jsonUnmarshalContract contractBytes with
        | .error _ => (.fail "Unmarshaling error of ContractBytes", stub)
        | .ok _ => (.ok (some contractBytes), stub)
      | .ok none => (.fail "Error in getting ContractBytes from Ledger", stub)

/-- The test helper `AddSampleWfIOJson`: stores `args[0]` under the template key. -/
def AddSampleWfIOJson (scan : String → Bytes) (stub : ChaincodeStub) (args : List String) :
    Outcome × ChaincodeStub :=
  match args with
  | [] => (.panic, stub)
  | arg :: _ =>
    match stub.PutState WORKFLOW_TEMPLATE_KEY (scan arg) with
    | .error err => (.fail ("SampleWfIOJson state failed PUT to ledger: " ++ err), stub)
    | .ok stub1 => (.ok none, stub1)

/-- The test helper `PrintSampleWfIOJson`. -/
def PrintSampleWfIOJson (stub : ChaincodeStub) (_args : List String) :
    Outcome × ChaincodeStub :=
  match stub.GetState WORKFLOW_TEMPLATE_KEY with
  | .error _ => (.fail "Unable to fetch WfIOJsonBytes", stub)
  | .ok _ => (.ok none, stub)

/-- The result `Invoke` gives once the selected handler has run: the handler's bytes and
error are dropped, a panic of the handler is a panic of `Invoke`. -/
def Invoke.finish (r : Outcome × ChaincodeStub) : Outcome × ChaincodeStub :=
  match r with
  | (.panic, stub1) => (.panic, stub1)
  | (_, stub1) => (.ok none, stub1)

/-- Called during invoke calls of chaincode. -/
def Invoke (scan : String → Bytes) (stub : ChaincodeStub) (function : String)
    (args : List String) : Outcome × ChaincodeStub :=
  if function = "addContract" then Invoke.finish (AddContract scan stub args)
  else if function = "addSignature" then Invoke.finish (AddSignature scan stub args)
  else if function = "issue" then Invoke.finish (IssueDocument scan stub args)
  else if function = "read" then Invoke.finish (ReadDocument scan stub args)
  else if function = "addCert" then Invoke.finish (AddCert stub args)
  else if function = "addSampleWfIOJson" then Invoke.finish (AddSampleWfIOJson scan stub args)
  else if function = "printSampleWfIOJson" then Invoke.finish (PrintSampleWfIOJson stub args)
  else (.ok none, stub)

/-- The helper `GetWorkFlowTemplate`, which no handler calls (the call in
`IsValidContract` is commented out): the template that the workflow template
chaincode named in the stored config returns for `workflowId`. The cross-chaincode
query `stub.QueryChaincode(name, function, args)` is the parameter `queryChaincode`. -/
def GetWorkFlowTemplate
    (queryChaincode : String → String → List String → Except String (Option Bytes))
    (stub : ChaincodeStub) (workflowId : String) : Except String (Option Bytes) :=
  match stub.GetState WORKFLOW_TEMPLATE_KEY with
  | .error _ => .error "Unable to fetch container and compliance contract keys"
  | .ok contractStateJSON =>
    match jsonUnmarshalContractState (bytesOrNil contractStateJSON) with
    | .error err => .error err
    | .ok contractState =>
      let workflowTemplateChaincode := contractState.WorkflowTemplateCC
      match queryChaincode workflowTemplateChaincode "query" [workflowId] with
      | .error _ =>
        .error "workflowTemplate: Error in querying from workflow template chaincode"
      | .ok wfIOBytes =>
        match jsonUnmarshalWorkflowIO (bytesOrNil wfIOBytes) with
        | .error err => .error err
        | .ok _ => .ok wfIOBytes

/-! ## Notions used to state the properties -/

/-- A string that holds no stray byte: `encoding/json` writes and reads it unchanged. -/
def ValidUTF8 (s : String) : Prop := toValidUTF8 s = s

/-- Both strings of a configuration are valid UTF-8. -/
def ContractState.Valid (s : ContractState) : Prop :=
  ValidUTF8 s.Version ∧ ValidUTF8 s.WorkflowTemplateCC

/-- All strings of an event are valid UTF-8. -/
def Event.Valid (e : Event) : Prop :=
  ValidUTF8 e.User ∧ ValidUTF8 e.Role ∧ ValidUTF8 e.Organization ∧ ValidUTF8 e.DocId ∧
  ValidUTF8 e.DocType ∧ ValidUTF8 e.TimeStamp ∧ ValidUTF8 e.EventType ∧
  ValidUTF8 e.DocHash ∧ ValidUTF8 e.DocUrl

/-- The maps of a contract have pairwise distinct keys (every contract that the decoder
or a handler builds has). -/
def Contract.DistinctKeys (c : Contract) : Prop :=
  (∀ l, c.Events = some l → (l.map Prod.fst).Nodup) ∧
  (∀ l, c.ParticipantRoleToInstanceMapping = some l → (l.map Prod.fst).Nodup) ∧
  (∀ l, c.DocTypeToDocIdMapping = some l → (l.map Prod.fst).Nodup)

/-- The keys of a map are valid UTF-8 and its values satisfy `Q`. -/
def GoMap.AllValid {β : Type} (Q : β → Prop) (m : GoMap β) : Prop :=
  ∀ l, m = some l → ∀ kv, kv ∈ l → ValidUTF8 kv.1 ∧ Q kv.2

/-- The document ids, the events and the keys and values of the maps of a contract are
valid UTF-8. -/
def Contract.ValidBody (c : Contract) : Prop :=
  (∀ x, x ∈ c.Documents.elems → ValidUTF8 x) ∧
  c.Events.AllValid (fun s => ∀ e, e ∈ s.elems → e.Valid) ∧
  c.ParticipantRoleToInstanceMapping.AllValid ValidUTF8 ∧
  c.DocTypeToDocIdMapping.AllValid ValidUTF8

/-- The collections of a contract are as the decoder and the handlers build them. -/
def Contract.WFBody (c : Contract) : Prop := c.DistinctKeys ∧ c.ValidBody

/-- The three string fields of a contract are valid UTF-8. -/
def Contract.ValidHead (c : Contract) : Prop :=
  ValidUTF8 c.WorkflowId ∧ ValidUTF8 c.ContractName ∧ ValidUTF8 c.ContractId

/-- A contract as the decoder gives it: the maps have distinct keys and every string in
it is valid UTF-8; `json.Marshal` followed by `json.Unmarshal` gives it back. -/
def Contract.WF (c : Contract) : Prop := c.WFBody ∧ c.ValidHead

/-- A contract with its three string fields as `json.Marshal` writes them. -/
def Contract.sanitized (c : Contract) : Contract :=
  { c with
    WorkflowId := toValidUTF8 c.WorkflowId
    ContractName := toValidUTF8 c.ContractName
    ContractId := toValidUTF8 c.ContractId }

/-- Both maps of a contract are made (not `nil`), as `AddContract` makes them. -/
def Contract.MapsMade (c : Contract) : Prop :=
  c.Events ≠ none ∧ c.DocTypeToDocIdMapping ≠ none

/-- No document of the contract has an empty list of events under `Events`. -/
def Contract.NoEmptyList (c : Contract) : Prop :=
  ∀ d, c.eventsOf d ≠ some []

/-- The filing property of a contract: every event listed under a document id carries
that document id. -/
def Contract.Filed (K : Contract) : Prop :=
  ∀ d e, e ∈ (K.eventsOf d).elems → e.DocId = d

/-- The number of events of type `Issue` in a list of events. -/
def issueEvents (evs : List Event) : Nat :=
  (evs.filter (fun e => decide (e.EventType = "Issue"))).length

/-- The number of events of type `Issue` over all lists of the entries of an `Events`
map. -/
def issueTotal : List (String × Slice Event) → Nat
  | [] => 0
  | kv :: rest => issueEvents kv.2.elems + issueTotal rest

/-- The total number of events of type `Issue` across all lists in `Events`. -/
def Contract.issueCount (K : Contract) : Nat :=
  match K.Events with
  | none => 0
  | some l => issueTotal l

/-- The issue bookkeeping of a contract: `Documents` is as long as there are `Issue`
events, every document id in `Documents` has an `Issue` event filed under it, and every
document id that `DocTypeToDocIdMapping` maps to is in `Documents`. -/
def Contract.Bookkept (K : Contract) : Prop :=
  K.Documents.elems.length = K.issueCount ∧
  (∀ d, d ∈ K.Documents.elems → ∃ e, e ∈ (K.eventsOf d).elems ∧ e.EventType = "Issue") ∧
  (∀ t x, K.DocTypeToDocIdMapping.lookup t = some x → x ∈ K.Documents.elems)

/-- The contract the ledger holds under `contractId`, as a read followed by
`json.Unmarshal` gives it. -/
def ChaincodeStub.contractAt (stub : ChaincodeStub) (contractId : String) :
    Option Contract :=
  match stub.GetState contractId with
  | .ok (some contractBytes) =>
    match jsonUnmarshalContract contractBytes with
    | .ok contract => some contract
    | .error _ => none
  | _ => none

/-- The instance identifier a role-mapping document gives to `role`: the string value
of the last member named `role`, names and values as the decoder reads them. -/
def roleInstance (mapping : Bytes) (role : String) : Option String :=
  match mapping with
  | .doc (.obj kvs) =>
    match entriesLookup role
        (kvs.reverse.map (fun (kv : String × Json) => (toValidUTF8 kv.1, kv.2))) with
    | some (.str s) => some (toValidUTF8 s)
    | _ => none
  | _ => none

/-- A run of `RegisterDocumentEvent` calls `(docId, eventJson)` on one contract, each of
which has to succeed; the result is the ledger after the last call. -/
def recordAll (scan : String → Bytes) (contractId : String) :
    ChaincodeStub → List (String × String) → Option ChaincodeStub
  | stub, [] => some stub
  | stub, (docId, eventJson) :: rest =>
    match RegisterDocumentEvent scan stub [contractId, docId, eventJson] with
    | (.ok _, stub1) => recordAll scan contractId stub1 rest
    | _ => none

/-- The events of a run of calls that are recorded for document `docId`, in call order. -/
def eventsFor (scan : String → Bytes) (docId : String) :
    List (String × String) → List Event
  | [] => []
  | (d, eventJson) :: rest =>
    if d = docId then
      match jsonUnmarshalEvent (scan eventJson) with
      | .ok e => e :: eventsFor scan docId rest
      | .error _ => eventsFor scan docId rest
    else eventsFor scan docId rest

/-- The ledgers reachable from a successful `AddContract` of `contractId` by
`RegisterDocumentEvent` calls with arbitrary arguments (whatever their outcome). -/
inductive Reachable (scan : String → Bytes) (contractId : String) : ChaincodeStub → Prop where
  | created (stub : ChaincodeStub) (workflowId contractName mapping : String)
      (h : (AddContract scan stub [workflowId, contractId, contractName, mapping]).1
        = .ok none) :
      Reachable scan contractId
        (AddContract scan stub [workflowId, contractId, contractName, mapping]).2
  | recorded (stub : ChaincodeStub) (args : List String)
      (h : Reachable scan contractId stub) :
      Reachable scan contractId (RegisterDocumentEvent scan stub args).2

/-! ## Sample inputs

Argument texts with their reading, and ledgers, used to instantiate the statements. -/

/-- The template `{"ActorList":[{"Id":"A1","Name":"Exporter"},{"Id":"A2","Name":"Importer"}]}`. -/
def sampleTemplate : Json :=
  .obj [("ActorList", .arr [.obj [("Id", .str "A1"), ("Name", .str "Exporter")],
    .obj [("Id", .str "A2"), ("Name", .str "Importer")]])]

def mapBothText : String := "\x7b\"Exporter\":\"E1\",\"Importer\":\"I1\"\x7d"

def mapBothJson : Json := .obj [("Exporter", .str "E1"), ("Importer", .str "I1")]

def mapExporterText : String := "\x7b\"Exporter\":\"E1\"\x7d"

def mapExporterJson : Json := .obj [("Exporter", .str "E1")]

def issueXText : String :=
  "\x7b\"user\":\"Masai\",\"DocId\":\"x\",\"DocType\":\"Phyto\",\"eventType\":\"Issue\"\x7d"

def issueXJson : Json :=
  .obj [("user", .str "Masai"), ("DocId", .str "x"), ("DocType", .str "Phyto"),
    ("eventType", .str "Issue")]

def issueYText : String :=
  "\x7b\"user\":\"Masai\",\"DocId\":\"y\",\"DocType\":\"Phyto\",\"eventType\":\"Issue\"\x7d"

def issueYJson : Json :=
  .obj [("user", .str "Masai"), ("DocId", .str "y"), ("DocType", .str "Phyto"),
    ("eventType", .str "Issue")]

def signXText : String := "\x7b\"user\":\"Kephis\",\"DocId\":\"x\",\"eventType\":\"Sign\"\x7d"

def signXJson : Json :=
  .obj [("user", .str "Kephis"), ("DocId", .str "x"), ("eventType", .str "Sign")]

def configText : String := "\x7b\"version\":\"1.0.0\",\"workflowTemplateCC\":\"wfcc1\"\x7d"

def configJson : Json := .obj [("version", .str "1.0.0"), ("workflowTemplateCC", .str "wfcc1")]

def oldConfigText : String := "\x7b\"version\":\"0.9.0\",\"workflowTemplateCC\":\"wfcc1\"\x7d"

def oldConfigJson : Json :=
  .obj [("version", .str "0.9.0"), ("workflowTemplateCC", .str "wfcc1")]

/-- The event that `issueXText` unmarshals to. -/
def issueXEvent : Event :=
  { Event.zero with User := "Masai", DocId := "x", DocType := "Phyto", EventType := "Issue" }

/-- The event that `issueYText` unmarshals to. -/
def issueYEvent : Event :=
  { Event.zero with User := "Masai", DocId := "y", DocType := "Phyto", EventType := "Issue" }

/-- The event that `signXText` unmarshals to. -/
def signXEvent : Event :=
  { Event.zero with User := "Kephis", DocId := "x", EventType := "Sign" }

/-- A scanner that reads the sample texts as `encoding/json` does (any other text is
taken not to be JSON). -/
def sampleScan (s : String) : Bytes :=
  if s = mapBothText then .doc mapBothJson
  else if s = mapExporterText then .doc mapExporterJson
  else if s = issueXText then .doc issueXJson
  else if s = issueYText then .doc issueYJson
  else if s = signXText then .doc signXJson
  else if s = configText then .doc configJson
  else if s = oldConfigText then .doc oldConfigJson
  else .garbage

/-- A ledger without faults that holds nothing. -/
def emptyLedger : ChaincodeStub :=
  { state := fun _ => none, getFault := fun _ => none, putFault := fun _ => none }

/-- A ledger without faults that holds the sample template under the template key. -/
def sampleLedger : ChaincodeStub := emptyLedger.store WORKFLOW_TEMPLATE_KEY (.doc sampleTemplate)

/-- The sample ledger after `addContract("WF1", "C1", "Acme", mapBothText)`. -/
def ledgerC1 : ChaincodeStub :=
  (AddContract sampleScan sampleLedger ["WF1", "C1", "Acme", mapBothText]).2

/-- The calls `issue(C1, x, ..)`, `issue(C1, y, ..)`, `addSignature(C1, x, ..)`. -/
def sampleCalls : List (String × String) :=
  [("x", issueXText), ("y", issueYText), ("x", signXText)]

/-- The ledger `ledgerC1` after the calls `sampleCalls`. -/
def ledgerC1Events : ChaincodeStub :=
  (RegisterDocumentEvent sampleScan
    (RegisterDocumentEvent sampleScan
      (RegisterDocumentEvent sampleScan ledgerC1 ["C1", "x", issueXText]).2
      ["C1", "y", issueYText]).2
    ["C1", "x", signXText]).2

/-- The ledger `ledgerC1` after `issue(C1, x, issueXText)`. -/
def ledgerIssueX : ChaincodeStub :=
  (RegisterDocumentEvent sampleScan ledgerC1 ["C1", "x", issueXText]).2

/-- The ledger `ledgerIssueX` after `issue(C1, y, issueYText)`: a second document of
type `Phyto`. -/
def ledgerIssueXY : ChaincodeStub :=
  (RegisterDocumentEvent sampleScan ledgerIssueX ["C1", "y", issueYText]).2

/-- A ledger whose writes fail. -/
def readOnlyLedger : ChaincodeStub :=
  { state := fun _ => none, getFault := fun _ => none,
    putFault := fun _ => some "ledger unavailable" }

/-- A contract name with a byte that is not valid UTF-8: the Go string `"Ac\xffme"`. -/
def strayName : String := String.mk ['A', 'c', strayByte 0xFF, 'm', 'e']

/-- The name `json.Marshal` writes for `strayName`: `"Ac\ufffdme"`. -/
def replacedName : String := String.mk ['A', 'c', Char.ofNat 0xFFFD, 'm', 'e']

/-- The sample ledger after `addContract("WF1", "C1", strayName, mapBothText)`. -/
def ledgerStrayName : ChaincodeStub :=
  (AddContract sampleScan sampleLedger ["WF1", "C1", strayName, mapBothText]).2

/-- The contract stored under `C1` in `ledgerIssueX`. -/
def contractIssueX : Contract :=
  { AddContract.newContract "WF1" "C1" "Acme" [("Exporter", "E1"), ("Importer", "I1")] with
    Documents := some ["x"]
    Events := some [("x", some [issueXEvent])]
    DocTypeToDocIdMapping := some [("Phyto", "x")] }

def templateText : String :=
  "\x7b\"ActorList\":[\x7b\"Id\":\"A1\",\"Name\":\"Exporter\"\x7d,\x7b\"Id\":\"A2\",\"Name\":\"Importer\"\x7d]\x7d"

/-- A role-mapping argument that is JSON but not an object: `["Exporter","E1"]`. -/
def listMappingText : String := "[\"Exporter\",\"E1\"]"

def listMappingJson : Json := .arr [.str "Exporter", .str "E1"]

/-- A role-mapping argument with a nested value:
`{"Exporter":{"id":"E1"},"Importer":"I1"}`. -/
def nestedMappingText : String :=
  "\x7b\"Exporter\":\x7b\"id\":\"E1\"\x7d,\"Importer\":\"I1\"\x7d"

def nestedMappingJson : Json :=
  .obj [("Exporter", .obj [("id", .str "E1")]), ("Importer", .str "I1")]

/-- The sample scanner extended to the three texts above. -/
def extraScan (s : String) : Bytes :=
  if s = templateText then .doc sampleTemplate
  else if s = listMappingText then .doc listMappingJson
  else if s = nestedMappingText then .doc nestedMappingJson
  else sampleScan s

/-- A workflow template chaincode `wfcc1` that returns the sample template (actors
`Exporter` and `Importer`) for the workflow `WF1` and knows no other workflow. -/
def sampleProvider (name function : String) (args : List String) :
    Except String (Option Bytes) :=
  if name = "wfcc1" ∧ function = "query" ∧ args = ["WF1"] then .ok (some (.doc sampleTemplate))
  else .error "unknown workflow"

/-- The empty ledger after `init(configText)`: the config is stored under the
well-known key. -/
def ledgerInit : ChaincodeStub := (Init sampleScan emptyLedger "init" [configText]).2

/-- The ledger `ledgerInit` after `addSampleWfIOJson(templateText)`. -/
def ledgerInitThenSample : ChaincodeStub :=
  (AddSampleWfIOJson extraScan ledgerInit [templateText]).2

/-- The sample ledger (template stored) after `init(configText)`. -/
def ledgerSampleThenInit : ChaincodeStub :=
  (Init sampleScan sampleLedger "init" [configText]).2

/-- The config that the bytes stored under the well-known key unmarshal to, if any. -/
def ChaincodeStub.configAt (stub : ChaincodeStub) : Option ContractState :=
  match stub.state WORKFLOW_TEMPLATE_KEY with
  | some b => (jsonUnmarshalContractState b).toOption
  | none => none

/-- The actor list of the template that contract validation reads
(`GetSampleWfIOJson` followed by `json.Unmarshal`), if the read and the decoding
succeed. -/
def ChaincodeStub.templateActors (stub : ChaincodeStub) : Option (Slice Actor) :=
  match GetSampleWfIOJson stub with
  | .ok b =>
    match jsonUnmarshalWorkflowIO (bytesOrNil b) with
    | .ok wfIO => some wfIO.ActorList
    | .error _ => none
  | .error _ => none

/-- The ledger `ledgerIssueX` after a second `issue(C1, x, issueXText)`. -/
def ledgerIssueXX : ChaincodeStub :=
  (RegisterDocumentEvent sampleScan ledgerIssueX ["C1", "x", issueXText]).2

/-! ## Association lists and the JSON round trip -/

theorem entriesLookup_insert_self {β : Type} (k : String) (v : β) (l : List (String × β)) :
    entriesLookup k (entriesInsert k v l) = some v := by
  induction l with
  | nil => simp [entriesInsert, entriesLookup]
  | cons kv rest ih =>
    obtain ⟨k1, v1⟩ := kv
    by_cases h : k1 = k
    · simp [entriesInsert, entriesLookup, h]
    · simp [entriesInsert, entriesLookup, h, ih]

theorem entriesLookup_insert_ne {β : Type} (k k2 : String) (v : β) (l : List (String × β))
    (hne : k2 ≠ k) : entriesLookup k2 (entriesInsert k v l) = entriesLookup k2 l := by
  induction l with
  | nil => simp [entriesInsert, entriesLookup, Ne.symm hne]
  | cons kv rest ih =>
    obtain ⟨k1, v1⟩ := kv
    by_cases h : k1 = k
    · subst h
      simp [entriesInsert, entriesLookup, Ne.symm hne]
    · by_cases h2 : k1 = k2
      · subst h2
        simp [entriesInsert, entriesLookup, hne]
      · simp [entriesInsert, entriesLookup, h, h2, ih]

theorem entriesInsert_fresh {β : Type} (k : String) (v : β) (l : List (String × β))
    (h : k ∉ l.map Prod.fst) : entriesInsert k v l = l ++ [(k, v)] := by
  induction l with
  | nil => rfl
  | cons kv rest ih =>
    obtain ⟨k1, v1⟩ := kv
    simp only [List.map_cons, List.mem_cons, not_or] at h
    have h1 : ¬ k1 = k := fun e => h.1 e.symm
    simp [entriesInsert, h1, ih h.2]

theorem entriesInsert_keys {β : Type} (k : String) (v : β) (l : List (String × β)) :
    (entriesInsert k v l).map Prod.fst
      = if k ∈ l.map Prod.fst then l.map Prod.fst else l.map Prod.fst ++ [k] := by
  induction l with
  | nil => simp [entriesInsert]
  | cons kv rest ih =>
    obtain ⟨k1, v1⟩ := kv
    by_cases h : k1 = k
    · subst h
      simp [entriesInsert]
    · have h2 : ¬ k = k1 := fun e => h e.symm
      simp only [entriesInsert, h, if_false, List.map_cons, ih, List.mem_cons, h2, false_or]
      split <;> simp

theorem entriesInsert_nodup {β : Type} (k : String) (v : β) (l : List (String × β))
    (h : (l.map Prod.fst).Nodup) : ((entriesInsert k v l).map Prod.fst).Nodup := by
  rw [entriesInsert_keys]
  split
  · exact h
  · rename_i hk
    rw [List.nodup_append]
    refine ⟨h, List.nodup_singleton k, ?_⟩
    intro a ha hb
    simp only [List.mem_singleton] at hb
    exact hk (hb ▸ ha)

theorem cleanChar_idem (c : Char) : cleanChar (cleanChar c) = cleanChar c := by
  unfold cleanChar
  split
  · split <;> rfl
  · rename_i h
    simp [h]

theorem toValidUTF8_idem (s : String) : toValidUTF8 (toValidUTF8 s) = toValidUTF8 s := by
  simp only [toValidUTF8, List.map_map]
  congr 1
  apply List.map_congr_left
  intro c _
  exact cleanChar_idem c

theorem ValidUTF8_toValidUTF8 (s : String) : ValidUTF8 (toValidUTF8 s) :=
  toValidUTF8_idem s

theorem ValidUTF8_empty : ValidUTF8 "" := rfl

theorem decString_valid (cur s : String) (j : Json) (h : decString cur j = .ok s)
    (hcur : ValidUTF8 cur) : ValidUTF8 s := by
  cases j with
  | str x =>
    simp only [decString, Except.ok.injEq] at h
    exact h ▸ ValidUTF8_toValidUTF8 x
  | null =>
    simp only [decString, Except.ok.injEq] at h
    exact h ▸ hcur
  | bool b => simp [decString] at h
  | num n => simp [decString] at h
  | arr xs => simp [decString] at h
  | obj kvs => simp [decString] at h

theorem decString_enc (cur s : String) (h : ValidUTF8 s) :
    decString cur (encString s) = .ok s := by
  show Except.ok (toValidUTF8 (toValidUTF8 s)) = Except.ok s
  rw [h, h]

theorem entriesInsert_mem {β : Type} (k : String) (v : β) (l : List (String × β))
    (kv : String × β) (h : kv ∈ entriesInsert k v l) : kv = (k, v) ∨ kv ∈ l := by
  induction l with
  | nil =>
    simp only [entriesInsert, List.mem_singleton] at h
    exact Or.inl h
  | cons kv1 rest ih =>
    obtain ⟨k1, v1⟩ := kv1
    simp only [entriesInsert] at h
    split at h
    · rcases List.mem_cons.1 h with h1 | h1
      · exact Or.inl h1
      · exact Or.inr (List.mem_cons_of_mem _ h1)
    · rcases List.mem_cons.1 h with h1 | h1
      · exact Or.inr (h1 ▸ List.mem_cons_self _ _)
      · rcases ih h1 with h2 | h2
        · exact Or.inl h2
        · exact Or.inr (List.mem_cons_of_mem _ h2)

theorem entriesLookup_mem {β : Type} (k : String) (v : β) (l : List (String × β))
    (h : entriesLookup k l = some v) : (k, v) ∈ l := by
  induction l with
  | nil => simp [entriesLookup] at h
  | cons kv1 rest ih =>
    obtain ⟨k1, v1⟩ := kv1
    simp only [entriesLookup] at h
    split at h
    · rename_i hk
      simp only [Option.some.injEq] at h
      rw [hk, h]
      exact List.mem_cons_self _ _
    · exact List.mem_cons_of_mem _ (ih h)

theorem decElems_map {α : Type} (dec : Json → Except String α) (enc : α → Json)
    (l : List α) (h : ∀ a, a ∈ l → dec (enc a) = .ok a) :
    decElems dec (l.map enc) = .ok l := by
  induction l with
  | nil => rfl
  | cons a rest ih =>
    have h1 := h a (List.mem_cons_self _ _)
    have h2 := ih (fun b hb => h b (List.mem_cons_of_mem _ hb))
    simp [decElems, h1, h2]

theorem decElems_forall {α : Type} (dec : Json → Except String α) (P : α → Prop)
    (hdec : ∀ j a, dec j = .ok a → P a) (xs : List Json) (l : List α)
    (h : decElems dec xs = .ok l) : ∀ a, a ∈ l → P a := by
  induction xs generalizing l with
  | nil =>
    simp only [decElems, Except.ok.injEq] at h
    subst h
    intro a ha
    cases ha
  | cons x rest ih =>
    simp only [decElems] at h
    split at h
    · exact absurd h (by simp)
    · rename_i a ha
      split at h
      · exact absurd h (by simp)
      · rename_i l1 hl1
        simp only [Except.ok.injEq] at h
        subst h
        intro b hb
        rcases List.mem_cons.1 hb with hb1 | hb1
        · exact hb1 ▸ hdec x a ha
        · exact ih l1 hl1 b hb1

theorem decSlice_forall {α : Type} (dec : Json → Except String α) (P : α → Prop)
    (hdec : ∀ j a, dec j = .ok a → P a) (cur s : Slice α) (j : Json)
    (h : decSlice dec cur j = .ok s) : ∀ a, a ∈ s.elems → P a := by
  cases j with
  | arr xs =>
    simp only [decSlice] at h
    split at h
    · exact absurd h (by simp)
    · rename_i l hl
      simp only [Except.ok.injEq] at h
      subst h
      exact decElems_forall dec P hdec xs l hl
  | null =>
    simp only [decSlice, Except.ok.injEq] at h
    subst h
    intro a ha
    cases ha
  | bool b => simp [decSlice] at h
  | num n => simp [decSlice] at h
  | str x => simp [decSlice] at h
  | obj kvs => simp [decSlice] at h

theorem decEntries_forall {β : Type} (dec : Json → Except String β) (Q : β → Prop)
    (hdec : ∀ j b, dec j = .ok b → Q b) (kvs : List (String × Json))
    (acc l : List (String × β)) (h : decEntries dec kvs acc = .ok l)
    (hacc : ∀ kv, kv ∈ acc → ValidUTF8 kv.1 ∧ Q kv.2) :
    ∀ kv, kv ∈ l → ValidUTF8 kv.1 ∧ Q kv.2 := by
  induction kvs generalizing acc with
  | nil =>
    simp only [decEntries, Except.ok.injEq] at h
    exact h ▸ hacc
  | cons kv rest ih =>
    obtain ⟨k, v⟩ := kv
    simp only [decEntries] at h
    split at h
    · exact absurd h (by simp)
    · rename_i b hb
      refine ih _ h ?_
      intro kv hkv
      rcases entriesInsert_mem _ _ _ _ hkv with h1 | h1
      · subst h1
        exact ⟨ValidUTF8_toValidUTF8 k, hdec v b hb⟩
      · exact hacc kv h1

theorem decMap_forall {β : Type} (dec : Json → Except String β) (Q : β → Prop)
    (hdec : ∀ j b, dec j = .ok b → Q b) (cur m : GoMap β) (j : Json)
    (h : decMap dec cur j = .ok m) (hcur : cur.AllValid Q) : m.AllValid Q := by
  intro l hl
  subst hl
  cases j with
  | obj kvs =>
    simp only [decMap] at h
    split at h
    · exact absurd h (by simp)
    · rename_i l1 hl1
      simp only [Except.ok.injEq, Option.some.injEq] at h
      subst h
      refine decEntries_forall dec Q hdec kvs _ _ hl1 ?_
      cases cur with
      | none =>
        intro kv hkv
        cases hkv
      | some c => exact hcur c rfl
  | null => simp [decMap] at h
  | bool b => simp [decMap] at h
  | num n => simp [decMap] at h
  | str s => simp [decMap] at h
  | arr xs => simp [decMap] at h

theorem decEntries_map {β : Type} (dec : Json → Except String β) (enc : β → Json)
    (l acc : List (String × β))
    (h : ∀ kv, kv ∈ l → ValidUTF8 kv.1 ∧ dec (enc kv.2) = .ok kv.2)
    (hnd : ((acc ++ l).map Prod.fst).Nodup) :
    decEntries dec (l.map (fun kv => (toValidUTF8 kv.1, enc kv.2))) acc = .ok (acc ++ l) := by
  induction l generalizing acc with
  | nil => simp [decEntries]
  | cons kv rest ih =>
    obtain ⟨k, v⟩ := kv
    have hk : k ∉ acc.map Prod.fst := by
      intro hmem
      rw [List.map_append, List.nodup_append] at hnd
      exact hnd.2.2 hmem (by simp)
    obtain ⟨hv1, hv2⟩ := h (k, v) (List.mem_cons_self _ _)
    have hv1 : toValidUTF8 k = k := hv1
    have hv2 : dec (enc v) = .ok v := hv2
    simp only [List.map_cons, decEntries, hv2, toValidUTF8_idem, hv1]
    rw [entriesInsert_fresh k v acc hk]
    have := ih (acc ++ [(k, v)]) (fun kv hkv => h kv (List.mem_cons_of_mem _ hkv))
      (by simpa using hnd)
    simpa using this

theorem Event_zero_Valid : Event.zero.Valid := by
  refine ⟨?_, ?_, ?_, ?_, ?_, ?_, ?_, ?_, ?_⟩ <;> rfl

theorem withField_ok {α σ : Type} (r : Except String α) (set : α → σ) (s1 : σ)
    (h : withField r set = .ok s1) : ∃ a, r = .ok a ∧ s1 = set a := by
  cases r with
  | error e => simp [withField] at h
  | ok a =>
    simp only [withField, Except.ok.injEq] at h
    exact ⟨a, rfl, h.symm⟩

theorem Event_setField_Valid (k : String) (v : Json) (e e1 : Event)
    (h : Event.setField k v e = .ok e1) (he : e.Valid) : e1.Valid := by
  obtain ⟨h1, h2, h3, h4, h5, h6, h7, h8, h9⟩ := he
  unfold Event.setField at h
  split_ifs at h
  all_goals first
    | (simp only [Except.ok.injEq] at h
       subst h
       exact ⟨h1, h2, h3, h4, h5, h6, h7, h8, h9⟩)
    | (obtain ⟨a, ha, rfl⟩ := withField_ok _ _ _ h
       have hv := decString_valid _ _ _ ha (by assumption)
       refine ⟨?_, ?_, ?_, ?_, ?_, ?_, ?_, ?_, ?_⟩ <;> first | exact hv | assumption)

theorem decMembers_inv {σ : Type} (setField : String → Json → σ → Except String σ)
    (P : σ → Prop) (hstep : ∀ k v s s1, setField k v s = .ok s1 → P s → P s1)
    (kvs : List (String × Json)) (s s1 : σ)
    (h : decMembers setField kvs s = .ok s1) (hs : P s) : P s1 := by
  induction kvs generalizing s with
  | nil =>
    simp only [decMembers, Except.ok.injEq] at h
    exact h ▸ hs
  | cons kv rest ih =>
    obtain ⟨k, v⟩ := kv
    simp only [decMembers] at h
    split at h
    · exact absurd h (by simp)
    · rename_i s2 hs2
      exact ih s2 h (hstep _ _ _ _ hs2 hs)

theorem decStruct_inv {σ : Type} (setField : String → Json → σ → Except String σ)
    (P : σ → Prop) (hstep : ∀ k v s s1, setField k v s = .ok s1 → P s → P s1)
    (cur s1 : σ) (j : Json) (h : decStruct setField cur j = .ok s1) (hs : P cur) : P s1 := by
  cases j with
  | obj kvs => exact decMembers_inv setField P hstep kvs cur s1 h hs
  | null =>
    simp only [decStruct, Except.ok.injEq] at h
    exact h ▸ hs
  | bool b => simp [decStruct] at h
  | num n => simp [decStruct] at h
  | str s => simp [decStruct] at h
  | arr xs => simp [decStruct] at h

theorem jsonUnmarshal_inv {σ : Type} (setField : String → Json → σ → Except String σ)
    (P : σ → Prop) (hstep : ∀ k v s s1, setField k v s = .ok s1 → P s → P s1)
    (zero s1 : σ) (b : Bytes) (h : jsonUnmarshal setField zero b = .ok s1) (hs : P zero) :
    P s1 := by
  cases b with
  | garbage => simp [jsonUnmarshal] at h
  | doc j => exact decStruct_inv setField P hstep zero s1 j h hs

theorem jsonUnmarshalEvent_Valid (b : Bytes) (e : Event)
    (h : jsonUnmarshalEvent b = .ok e) : e.Valid :=
  jsonUnmarshal_inv Event.setField Event.Valid Event_setField_Valid _ _ b h Event_zero_Valid

theorem decEvent_Valid (j : Json) (e : Event)
    (h : decStruct Event.setField Event.zero j = .ok e) : e.Valid :=
  decStruct_inv Event.setField Event.Valid Event_setField_Valid _ _ j h Event_zero_Valid

theorem decEvents_Valid (j : Json) (s : Slice Event) (h : decEvents j = .ok s) :
    ∀ e, e ∈ s.elems → e.Valid :=
  decSlice_forall _ Event.Valid decEvent_Valid none s j h

theorem Event_roundtrip (e : Event) (he : e.Valid) :
    decStruct Event.setField Event.zero e.toJson = .ok e := by
  obtain ⟨h1, h2, h3, h4, h5, h6, h7, h8, h9⟩ := he
  cases e with
  | mk a1 a2 a3 a4 a5 a6 a7 a8 a9 =>
  have h1 : toValidUTF8 a1 = a1 := h1
  have h2 : toValidUTF8 a2 = a2 := h2
  have h3 : toValidUTF8 a3 = a3 := h3
  have h4 : toValidUTF8 a4 = a4 := h4
  have h5 : toValidUTF8 a5 = a5 := h5
  have h6 : toValidUTF8 a6 = a6 := h6
  have h7 : toValidUTF8 a7 = a7 := h7
  have h8 : toValidUTF8 a8 = a8 := h8
  have h9 : toValidUTF8 a9 = a9 := h9
  have key : decStruct Event.setField Event.zero (Event.mk a1 a2 a3 a4 a5 a6 a7 a8 a9).toJson
      = .ok (Event.mk (toValidUTF8 (toValidUTF8 a1)) (toValidUTF8 (toValidUTF8 a2))
          (toValidUTF8 (toValidUTF8 a3)) (toValidUTF8 (toValidUTF8 a4))
          (toValidUTF8 (toValidUTF8 a5)) (toValidUTF8 (toValidUTF8 a6))
          (toValidUTF8 (toValidUTF8 a7)) (toValidUTF8 (toValidUTF8 a8))
          (toValidUTF8 (toValidUTF8 a9))) := rfl
  rw [key, h1, h2, h3, h4, h5, h6, h7, h8, h9, h1, h2, h3, h4, h5, h6, h7, h8, h9]

theorem decEvents_enc (s : Slice Event) (hs : ∀ e, e ∈ s.elems → e.Valid) :
    decEvents (encSlice Event.toJson s) = .ok s := by
  cases s with
  | none => rfl
  | some l =>
    simp only [decEvents, encSlice, decSlice]
    rw [decElems_map _ _ l (fun e he => Event_roundtrip e (hs e he))]

theorem decStrings_enc (s : Slice String) (hs : ∀ x, x ∈ s.elems → ValidUTF8 x) :
    decSlice (decString "") none (encSlice encString s) = .ok s := by
  cases s with
  | none => rfl
  | some l =>
    simp only [encSlice, decSlice]
    rw [decElems_map (decString "") encString l (fun x hx => decString_enc "" x (hs x hx))]

theorem decMap_enc {β : Type} (dec : Json → Except String β) (enc : β → Json)
    (Q : β → Prop) (h : ∀ b, Q b → dec (enc b) = .ok b) (m : GoMap β)
    (hnd : ∀ l, m = some l → (l.map Prod.fst).Nodup) (hv : m.AllValid Q) :
    decMap dec none (encMap enc m) = .ok m := by
  cases m with
  | none => rfl
  | some l =>
    simp only [encMap, decMap, Option.getD]
    rw [decEntries_map dec enc l []
      (fun kv hkv => ⟨(hv l rfl kv hkv).1, h kv.2 (hv l rfl kv hkv).2⟩)
      (by simpa using hnd l rfl)]
    simp

theorem Contract_roundtrip_body (c : Contract) (h : c.WFBody) :
    jsonUnmarshalContract (jsonMarshal c.toJson) = .ok c.sanitized := by
  obtain ⟨⟨h1, h2, h3⟩, v1, v2, v3, v4⟩ := h
  cases c with
  | mk w n i d e p t =>
  have e1 := decStrings_enc d v1
  have e2 := decMap_enc decEvents (encSlice Event.toJson) _ decEvents_enc e h1 v2
  have e3 := decMap_enc (decString "") encString _ (decString_enc "") p h2 v3
  have e4 := decMap_enc (decString "") encString _ (decString_enc "") t h3 v4
  have f1 : foldName "WorkflowId" = "workflowid" := by decide
  have f2 : foldName "contractName" = "contractname" := by decide
  have f3 : foldName "ContractId" = "contractid" := by decide
  have f4 : foldName "Documents" = "documents" := by decide
  have f5 : foldName "events" = "events" := by decide
  have f6 : foldName "participants" = "participants" := by decide
  have f7 : foldName "DocTypeToDocIdMapping" = "doctypetodocidmapping" := by decide
  simp only [jsonUnmarshalContract, jsonMarshal, jsonUnmarshal, Contract.toJson, decStruct,
    decMembers, f1, f2, f3, f4, f5, f6, f7, Contract.setField, Contract.zero, withField,
    decString, encString, toValidUTF8_idem, Contract.sanitized]
  simp [e1, e2, e3, e4, withField]

theorem sanitized_eq (c : Contract) (h : c.ValidHead) : c.sanitized = c := by
  obtain ⟨h1, h2, h3⟩ := h
  cases c with
  | mk w n i d e p t =>
  have h1 : toValidUTF8 w = w := h1
  have h2 : toValidUTF8 n = n := h2
  have h3 : toValidUTF8 i = i := h3
  simp only [Contract.sanitized, h1, h2, h3]

theorem Contract_roundtrip (c : Contract) (h : c.WF) :
    jsonUnmarshalContract (jsonMarshal c.toJson) = .ok c := by
  rw [Contract_roundtrip_body c h.1, sanitized_eq c h.2]

theorem decEntries_nodup {β : Type} (dec : Json → Except String β)
    (kvs : List (String × Json)) (acc l : List (String × β))
    (h : decEntries dec kvs acc = .ok l) (hacc : (acc.map Prod.fst).Nodup) :
    (l.map Prod.fst).Nodup := by
  induction kvs generalizing acc with
  | nil =>
    simp only [decEntries, Except.ok.injEq] at h
    exact h ▸ hacc
  | cons kv rest ih =>
    obtain ⟨k, v⟩ := kv
    simp only [decEntries] at h
    split at h
    · exact absurd h (by simp)
    · exact ih _ h (entriesInsert_nodup _ _ _ hacc)

theorem decMap_nodup {β : Type} (dec : Json → Except String β) (cur m : GoMap β) (j : Json)
    (h : decMap dec cur j = .ok m) (hcur : ∀ l, cur = some l → (l.map Prod.fst).Nodup) :
    ∀ l, m = some l → (l.map Prod.fst).Nodup := by
  intro l hl
  subst hl
  cases j with
  | obj kvs =>
    simp only [decMap] at h
    split at h
    · exact absurd h (by simp)
    · rename_i l1 hl1
      simp only [Except.ok.injEq, Option.some.injEq] at h
      subst h
      refine decEntries_nodup dec kvs _ _ hl1 ?_
      cases cur with
      | none => simp
      | some c => simpa using hcur c rfl
  | null =>
    simp [decMap] at h
  | bool b => simp [decMap] at h
  | num n => simp [decMap] at h
  | str s => simp [decMap] at h
  | arr xs => simp [decMap] at h

theorem Contract_setField_WF (k : String) (v : Json) (c c1 : Contract)
    (h : Contract.setField k v c = .ok c1) (hc : c.WF) : c1.WF := by
  obtain ⟨⟨⟨h1, h2, h3⟩, v1, v2, v3, v4⟩, a1, a2, a3⟩ := hc
  unfold Contract.setField at h
  split at h
  · obtain ⟨a, ha, rfl⟩ := withField_ok _ _ _ h
    exact ⟨⟨⟨h1, h2, h3⟩, v1, v2, v3, v4⟩, decString_valid _ _ _ ha a1, a2, a3⟩
  split at h
  · obtain ⟨a, ha, rfl⟩ := withField_ok _ _ _ h
    exact ⟨⟨⟨h1, h2, h3⟩, v1, v2, v3, v4⟩, a1, decString_valid _ _ _ ha a2, a3⟩
  split at h
  · obtain ⟨a, ha, rfl⟩ := withField_ok _ _ _ h
    exact ⟨⟨⟨h1, h2, h3⟩, v1, v2, v3, v4⟩, a1, a2, decString_valid _ _ _ ha a3⟩
  split at h
  · obtain ⟨a, ha, rfl⟩ := withField_ok _ _ _ h
    exact ⟨⟨⟨h1, h2, h3⟩,
      decSlice_forall _ ValidUTF8
        (fun j x hx => decString_valid _ _ _ hx ValidUTF8_empty) _ _ _ ha,
      v2, v3, v4⟩, a1, a2, a3⟩
  split at h
  · obtain ⟨a, ha, rfl⟩ := withField_ok _ _ _ h
    exact ⟨⟨⟨decMap_nodup _ _ _ _ ha h1, h2, h3⟩, v1,
      decMap_forall _ _ decEvents_Valid _ _ _ ha v2, v3, v4⟩, a1, a2, a3⟩
  split at h
  · obtain ⟨a, ha, rfl⟩ := withField_ok _ _ _ h
    exact ⟨⟨⟨h1, decMap_nodup _ _ _ _ ha h2, h3⟩, v1, v2,
      decMap_forall _ ValidUTF8
        (fun j x hx => decString_valid _ _ _ hx ValidUTF8_empty) _ _ _ ha v3, v4⟩,
      a1, a2, a3⟩
  split at h
  · obtain ⟨a, ha, rfl⟩ := withField_ok _ _ _ h
    exact ⟨⟨⟨h1, h2, decMap_nodup _ _ _ _ ha h3⟩, v1, v2, v3,
      decMap_forall _ ValidUTF8
        (fun j x hx => decString_valid _ _ _ hx ValidUTF8_empty) _ _ _ ha v4⟩,
      a1, a2, a3⟩
  · simp only [Except.ok.injEq] at h
    exact h ▸ ⟨⟨⟨h1, h2, h3⟩, v1, v2, v3, v4⟩, a1, a2, a3⟩

theorem Contract_zero_WF : Contract.zero.WF := by
  refine ⟨⟨⟨?_, ?_, ?_⟩, ?_, ?_, ?_, ?_⟩, rfl, rfl, rfl⟩
  · intro l hl
    simp [Contract.zero] at hl
  · intro l hl
    simp [Contract.zero] at hl
  · intro l hl
    simp [Contract.zero] at hl
  · intro x hx
    cases hx
  · intro l hl
    simp [Contract.zero] at hl
  · intro l hl
    simp [Contract.zero] at hl
  · intro l hl
    simp [Contract.zero] at hl

theorem jsonUnmarshalContract_WF (b : Bytes) (c : Contract)
    (h : jsonUnmarshalContract b = .ok c) : c.WF :=
  jsonUnmarshal_inv Contract.setField Contract.WF Contract_setField_WF _ _ b h
    Contract_zero_WF

theorem GoMap_assign_nodup {β : Type} (m m1 : GoMap β) (k : String) (v : β)
    (h : m.assign k v = some m1) (hm : ∀ l, m = some l → (l.map Prod.fst).Nodup) :
    ∀ l, m1 = some l → (l.map Prod.fst).Nodup := by
  intro l hl
  cases m with
  | none => simp [GoMap.assign] at h
  | some l0 =>
    simp only [GoMap.assign, Option.some.injEq] at h
    subst h
    simp only [Option.some.injEq] at hl
    subst hl
    exact entriesInsert_nodup _ _ _ (hm l0 rfl)

theorem GoMap_assign_valid {β : Type} (Q : β → Prop) (m m1 : GoMap β) (k : String) (v : β)
    (h : m.assign k v = some m1) (hk : ValidUTF8 k) (hv : Q v) (hm : m.AllValid Q) :
    m1.AllValid Q := by
  intro l hl
  cases m with
  | none => simp [GoMap.assign] at h
  | some l0 =>
    simp only [GoMap.assign, Option.some.injEq] at h
    subst h
    simp only [Option.some.injEq] at hl
    subst hl
    intro kv hkv
    rcases entriesInsert_mem _ _ _ _ hkv with h1 | h1
    · subst h1
      exact ⟨hk, hv⟩
    · exact hm l0 rfl kv h1

theorem sliceAppend_forall {α : Type} (P : α → Prop) (s : Slice α) (x : α)
    (hs : ∀ a, a ∈ s.elems → P a) (hx : P x) : ∀ a, a ∈ (sliceAppend s x).elems → P a := by
  intro a ha
  cases s with
  | none =>
    simp only [sliceAppend, Slice.elems, List.mem_singleton] at ha
    exact ha ▸ hx
  | some l =>
    simp only [sliceAppend, Slice.elems, List.mem_append, List.mem_singleton] at ha
    rcases ha with h1 | h1
    · exact hs a h1
    · exact h1 ▸ hx

theorem issue_WF (c c1 : Contract) (eventType docType docId : String)
    (h : RegisterDocumentEvent.issue c eventType docType docId = some c1) (hc : c.WF)
    (ht : ValidUTF8 docType) (hd : ValidUTF8 docId) : c1.WF := by
  obtain ⟨⟨⟨h1, h2, h3⟩, v1, v2, v3, v4⟩, a⟩ := hc
  unfold RegisterDocumentEvent.issue at h
  split at h
  · split at h
    · exact absurd h (by simp)
    · rename_i mapping hm
      simp only [Option.some.injEq] at h
      subst h
      exact ⟨⟨⟨h1, h2, GoMap_assign_nodup _ _ _ _ hm h3⟩,
        sliceAppend_forall ValidUTF8 _ _ v1 hd, v2, v3,
        GoMap_assign_valid ValidUTF8 _ _ _ _ hm ht hd v4⟩, a⟩
  · simp only [Option.some.injEq] at h
    exact h ▸ ⟨⟨⟨h1, h2, h3⟩, v1, v2, v3, v4⟩, a⟩

theorem eventsOf_Valid (c : Contract) (d : String) (hc : c.WF) :
    ∀ e, e ∈ (c.eventsOf d).elems → e.Valid := by
  intro e he
  unfold Contract.eventsOf at he
  split at he
  · cases he
  · rename_i events hev
    cases hE : c.Events with
    | none => simp [hE, GoMap.lookup] at hev
    | some l =>
      rw [hE] at hev
      exact (hc.1.2.2.1 l hE (d, events) (entriesLookup_mem d events l hev)).2 e he

theorem update_WF (c c2 : Contract) (docId : String) (e : Event)
    (h : RegisterDocumentEvent.update c docId e = some c2) (hc : c.WF)
    (he : e.Valid) (hd : ValidUTF8 docId) : c2.WF := by
  unfold RegisterDocumentEvent.update at h
  simp only at h
  split at h
  · exact absurd h (by simp)
  · rename_i c1 hc1
    have hw := issue_WF _ _ _ _ _ hc1 hc he.2.2.2.2.1 hd
    split at h
    · exact absurd h (by simp)
    · rename_i events hev
      simp only [Option.some.injEq] at h
      subst h
      obtain ⟨⟨⟨h1, h2, h3⟩, v1, v2, v3, v4⟩, a⟩ := hw
      exact ⟨⟨⟨GoMap_assign_nodup _ _ _ _ hev h1, h2, h3⟩, v1,
        GoMap_assign_valid _ _ _ _ _ hev hd
          (sliceAppend_forall Event.Valid _ _
            (eventsOf_Valid c1 docId ⟨⟨⟨h1, h2, h3⟩, v1, v2, v3, v4⟩, a⟩) he) v2,
        v3, v4⟩, a⟩


/-! ## What the handlers do on their success paths -/

theorem RegisterDocumentEvent_ok (scan : String → Bytes) (stub : ChaincodeStub)
    (c d ej : String) (e : Event) (b : Bytes) (K K2 : Contract)
    (he : jsonUnmarshalEvent (scan ej) = .ok e) (hd : e.DocId = d)
    (hg : stub.GetState c = .ok (some b)) (hK : jsonUnmarshalContract b = .ok K)
    (hu : RegisterDocumentEvent.update K d e = some K2) (hp : stub.putFault c = none) :
    RegisterDocumentEvent scan stub [c, d, ej]
      = (.ok none, stub.store c (jsonMarshal K2.toJson)) := by
  simp [RegisterDocumentEvent, he, hd, hg, hK, hu, ChaincodeStub.PutState, hp]

theorem RegisterDocumentEvent_inv (scan : String → Bytes) (stub stub1 : ChaincodeStub)
    (args : List String) (p : Option Bytes)
    (h : RegisterDocumentEvent scan stub args = (.ok p, stub1)) :
    ∃ c d ej e b K K2, args = [c, d, ej] ∧ jsonUnmarshalEvent (scan ej) = .ok e ∧
      e.DocId = d ∧ stub.GetState c = .ok (some b) ∧ jsonUnmarshalContract b = .ok K ∧
      RegisterDocumentEvent.update K d e = some K2 ∧ stub.putFault c = none ∧
      p = none ∧ stub1 = stub.store c (jsonMarshal K2.toJson) := by
  unfold RegisterDocumentEvent at h
  split at h
  · rename_i c d ej
    split at h
    · simp at h
    · rename_i e he
      dsimp only at h
      split at h
      · simp at h
      · rename_i hd
        simp only [ne_eq, not_not] at hd
        split at h
        · simp at h
        · simp at h
        · rename_i b hg
          split at h
          · simp at h
          · rename_i K hK
            split at h
            · simp at h
            · rename_i K2 hu
              unfold ChaincodeStub.PutState at h
              split at h
              · simp at h
              · rename_i stub2 hput
                simp only [Prod.mk.injEq, Outcome.ok.injEq] at h
                split at hput
                · simp at hput
                · rename_i hpf
                  simp only [Except.ok.injEq] at hput
                  exact ⟨c, d, ej, e, b, K, K2, rfl, he, hd, hg, hK, hu, hpf, h.1.symm,
                    by rw [← h.2, ← hput]⟩
  · simp at h

theorem RegisterDocumentEvent_cases (scan : String → Bytes) (stub : ChaincodeStub)
    (args : List String) :
    (RegisterDocumentEvent scan stub args).2 = stub ∨
      ∃ p, (RegisterDocumentEvent scan stub args).1 = .ok p := by
  unfold RegisterDocumentEvent
  dsimp only
  repeat' split
  all_goals first
    | (left; rfl)
    | (right; exact ⟨_, rfl⟩)


theorem AddContract_inv (scan : String → Bytes) (stub stub1 : ChaincodeStub)
    (args : List String) (p : Option Bytes)
    (h : AddContract scan stub args = (.ok p, stub1)) :
    ∃ w c n m mapping participants, args = [w, c, n, m] ∧ stub.GetState c = .ok none ∧
      assertMap (AddContract.decoded (scan m)) = some mapping ∧
      AddContract.collect mapping [] = some participants ∧
      (IsValidContract stub (AddContract.newContract w c n participants)).2 = none ∧
      stub.putFault c = none ∧ p = none ∧
      stub1 = stub.store c (jsonMarshal (AddContract.newContract w c n participants).toJson) := by
  unfold AddContract at h
  split at h
  · rename_i w c n m
    split at h
    · simp at h
    · simp at h
    · rename_i hg
      dsimp only at h
      split at h
      · simp at h
      · rename_i mapping hmap
        split at h
        · simp at h
        · rename_i participants hcol
          split at h
          · simp at h
          · rename_i b hv
            unfold ChaincodeStub.PutState at h
            split at h
            · simp at h
            · rename_i stub2 hput
              simp only [Prod.mk.injEq, Outcome.ok.injEq] at h
              split at hput
              · simp at hput
              · rename_i hpf
                simp only [Except.ok.injEq] at hput
                exact ⟨w, c, n, m, mapping, participants, rfl, hg, hmap, hcol, by rw [hv],
                  hpf, h.1.symm, by rw [← h.2, ← hput]⟩
  · simp at h

theorem checkActors_true_iff (M : GoMap String) (actors : List Actor) :
    IsValidContract.checkActors M actors = (true, none) ↔
      ∀ actor ∈ actors, (M.lookup actor.Name).isSome = true := by
  induction actors with
  | nil => simp [IsValidContract.checkActors]
  | cons a rest ih =>
    simp only [IsValidContract.checkActors, List.mem_cons, forall_eq_or_imp]
    cases hM : M.lookup a.Name with
    | none => simp
    | some v => simpa using ih

theorem checkActors_first_missing (M : GoMap String) (pre post : List Actor) (actor : Actor)
    (hpre : ∀ a ∈ pre, (M.lookup a.Name).isSome = true) (hmiss : M.lookup actor.Name = none) :
    IsValidContract.checkActors M (pre ++ actor :: post)
      = (false, some (actor.Name ++ " is missing in the mapping")) := by
  induction pre with
  | nil => simp [IsValidContract.checkActors, hmiss]
  | cons a rest ih =>
    have ha := hpre a (by simp)
    have hrest := ih (fun b hb => hpre b (by simp [hb]))
    cases hM : M.lookup a.Name with
    | none => simp [hM] at ha
    | some v => simpa [IsValidContract.checkActors, hM] using hrest

theorem IsValidContract_eq (stub : ChaincodeStub) (contract : Contract) (b : Bytes)
    (T : WorkflowIO) (hget : stub.getFault WORKFLOW_TEMPLATE_KEY = none)
    (hst : stub.state WORKFLOW_TEMPLATE_KEY = some b)
    (hT : jsonUnmarshalWorkflowIO b = .ok T) :
    IsValidContract stub contract
      = IsValidContract.checkActors contract.ParticipantRoleToInstanceMapping
          T.ActorList.elems := by
  simp [IsValidContract, GetSampleWfIOJson, ChaincodeStub.GetState, hget, hst, bytesOrNil, hT]

theorem entriesLookup_map {β γ : Type} (f : β → γ) (k : String) (l : List (String × β)) :
    entriesLookup k (l.map (fun kv => (kv.1, f kv.2))) = (entriesLookup k l).map f := by
  induction l with
  | nil => rfl
  | cons kv rest ih =>
    obtain ⟨k1, v1⟩ := kv
    by_cases h : k1 = k
    · simp [entriesLookup, h]
    · simp [entriesLookup, h, ih]

theorem entriesLookup_append {β : Type} (k : String) (l1 l2 : List (String × β)) :
    entriesLookup k (l1 ++ l2)
      = match entriesLookup k l1 with
        | some v => some v
        | none => entriesLookup k l2 := by
  induction l1 with
  | nil => rfl
  | cons kv rest ih =>
    obtain ⟨k1, v1⟩ := kv
    by_cases h : k1 = k
    · simp [entriesLookup, h]
    · simp [entriesLookup, h, ih]

theorem entriesLookup_foldl_insert {β : Type} (k : String) (kvs acc : List (String × β)) :
    entriesLookup k (kvs.foldl (fun a kv => entriesInsert kv.1 kv.2 a) acc)
      = match entriesLookup k kvs.reverse with
        | some v => some v
        | none => entriesLookup k acc := by
  induction kvs generalizing acc with
  | nil => rfl
  | cons kv rest ih =>
    obtain ⟨k1, v1⟩ := kv
    simp only [List.foldl_cons, List.reverse_cons]
    rw [ih, entriesLookup_append]
    cases hr : entriesLookup k rest.reverse with
    | some v => rfl
    | none =>
      by_cases h : k1 = k
      · subst h
        simp [entriesLookup, entriesLookup_insert_self]
      · have h2 : k ≠ k1 := fun e => h e.symm
        simp [entriesLookup, h, entriesLookup_insert_ne _ _ _ _ h2]

theorem foldl_insert_nodup {β : Type} (kvs acc : List (String × β))
    (hacc : (acc.map Prod.fst).Nodup) :
    ((kvs.foldl (fun a kv => entriesInsert kv.1 kv.2 a) acc).map Prod.fst).Nodup := by
  induction kvs generalizing acc with
  | nil => exact hacc
  | cons kv rest ih => exact ih _ (entriesInsert_nodup _ _ _ hacc)

theorem assertMap_foldl (kvs : List (String × Json)) (acc : List (String × Json)) :
    kvs.foldl (fun acc kv => entriesInsert (toValidUTF8 kv.1) kv.2 acc) acc
      = (kvs.map (fun (kv : String × Json) => (toValidUTF8 kv.1, kv.2))).foldl
          (fun a kv => entriesInsert kv.1 kv.2 a) acc := by
  rw [List.foldl_map]

theorem foldl_insert_keys_valid {β : Type} (kvs acc : List (String × β))
    (hkvs : ∀ kv, kv ∈ kvs → ValidUTF8 kv.1) (hacc : ∀ kv, kv ∈ acc → ValidUTF8 kv.1) :
    ∀ kv, kv ∈ kvs.foldl (fun a kv => entriesInsert kv.1 kv.2 a) acc → ValidUTF8 kv.1 := by
  induction kvs generalizing acc with
  | nil => exact hacc
  | cons kv rest ih =>
    refine ih _ (fun x hx => hkvs x (List.mem_cons_of_mem _ hx)) ?_
    intro x hx
    rcases entriesInsert_mem _ _ _ _ hx with h1 | h1
    · rw [h1]
      exact hkvs kv (List.mem_cons_self _ _)
    · exact hacc x h1

theorem collect_eq (l : List (String × Json)) (acc r : List (String × String))
    (h : AddContract.collect l acc = some r)
    (hnd : ((acc.map Prod.fst) ++ (l.map Prod.fst)).Nodup) :
    ∃ l1 : List (String × String),
      l = l1.map (fun kv => (kv.1, Json.str kv.2)) ∧
      r = acc ++ l1.map (fun kv => (kv.1, toValidUTF8 kv.2)) := by
  induction l generalizing acc with
  | nil =>
    simp only [AddContract.collect, Option.some.injEq] at h
    exact ⟨[], rfl, by simp [h]⟩
  | cons kv rest ih =>
    obtain ⟨k, v⟩ := kv
    cases v with
    | str s =>
      simp only [AddContract.collect] at h
      have hk : k ∉ acc.map Prod.fst := by
        intro hmem
        rw [List.nodup_append] at hnd
        exact hnd.2.2 hmem (by simp)
      rw [entriesInsert_fresh k (toValidUTF8 s) acc hk] at h
      obtain ⟨l1, hl1, hr⟩ := ih (acc ++ [(k, toValidUTF8 s)]) h (by simpa using hnd)
      exact ⟨(k, s) :: l1, by simp [hl1], by simp [hr]⟩
    | null => simp [AddContract.collect] at h
    | bool b => simp [AddContract.collect] at h
    | num n => simp [AddContract.collect] at h
    | arr xs => simp [AddContract.collect] at h
    | obj kvs => simp [AddContract.collect] at h

theorem participants_lookup (b : Bytes) (mapping : List (String × Json))
    (participants : List (String × String))
    (hmap : assertMap (AddContract.decoded b) = some mapping)
    (hcol : AddContract.collect mapping [] = some participants) (role : String) :
    entriesLookup role participants = roleInstance b role ∧
      (participants.map Prod.fst).Nodup := by
  cases b with
  | garbage => simp [AddContract.decoded, jsonUnmarshalAny, assertMap] at hmap
  | doc j =>
    cases j with
    | obj kvs =>
      simp only [AddContract.decoded, jsonUnmarshalAny, assertMap, Option.some.injEq] at hmap
      rw [assertMap_foldl] at hmap
      have hnd : (mapping.map Prod.fst).Nodup := by
        rw [← hmap]
        exact foldl_insert_nodup _ [] (by simp)
      obtain ⟨l1, hl1, hr⟩ := collect_eq mapping [] participants hcol (by simpa using hnd)
      simp only [List.nil_append] at hr
      subst hr
      have hlook := entriesLookup_foldl_insert role
        (kvs.map (fun (kv : String × Json) => (toValidUTF8 kv.1, kv.2)))
        ([] : List (String × Json))
      rw [hmap, hl1, entriesLookup_map, ← List.map_reverse] at hlook
      refine ⟨?_, ?_⟩
      · simp only [roleInstance]
        rw [entriesLookup_map]
        cases hp : entriesLookup role l1 with
        | none =>
          rw [hp] at hlook
          cases hk : entriesLookup role
              (kvs.reverse.map (fun (kv : String × Json) => (toValidUTF8 kv.1, kv.2))) with
          | none => rfl
          | some v => rw [hk] at hlook; simp at hlook
        | some s =>
          rw [hp] at hlook
          cases hk : entriesLookup role
              (kvs.reverse.map (fun (kv : String × Json) => (toValidUTF8 kv.1, kv.2))) with
          | none => rw [hk] at hlook; simp [entriesLookup] at hlook
          | some v =>
            rw [hk] at hlook
            simp only [Option.map_some', Option.some.injEq] at hlook
            rw [← hlook]
            rfl
      · rw [hl1] at hnd
        simpa [List.map_map, Function.comp_def] using hnd
    | null => simp [AddContract.decoded, jsonUnmarshalAny, assertMap] at hmap
    | bool b => simp [AddContract.decoded, jsonUnmarshalAny, assertMap] at hmap
    | num n => simp [AddContract.decoded, jsonUnmarshalAny, assertMap] at hmap
    | str s => simp [AddContract.decoded, jsonUnmarshalAny, assertMap] at hmap
    | arr xs => simp [AddContract.decoded, jsonUnmarshalAny, assertMap] at hmap

theorem assertMap_keys_valid (j : Json) (mapping : List (String × Json))
    (hmap : assertMap j = some mapping) : ∀ kv, kv ∈ mapping → ValidUTF8 kv.1 := by
  cases j with
  | obj kvs =>
    simp only [assertMap, Option.some.injEq] at hmap
    rw [assertMap_foldl] at hmap
    rw [← hmap]
    refine foldl_insert_keys_valid _ [] ?_ (fun kv hkv => by cases hkv)
    intro kv hkv
    obtain ⟨x, -, rfl⟩ := List.mem_map.1 hkv
    exact ValidUTF8_toValidUTF8 x.1
  | null => simp [assertMap] at hmap
  | bool b => simp [assertMap] at hmap
  | num n => simp [assertMap] at hmap
  | str s => simp [assertMap] at hmap
  | arr xs => simp [assertMap] at hmap

theorem collect_valid (l : List (String × Json)) (acc r : List (String × String))
    (h : AddContract.collect l acc = some r) (hl : ∀ kv, kv ∈ l → ValidUTF8 kv.1)
    (hacc : ∀ kv, kv ∈ acc → ValidUTF8 kv.1 ∧ ValidUTF8 kv.2) :
    ∀ kv, kv ∈ r → ValidUTF8 kv.1 ∧ ValidUTF8 kv.2 := by
  induction l generalizing acc with
  | nil =>
    simp only [AddContract.collect, Option.some.injEq] at h
    exact h ▸ hacc
  | cons kv rest ih =>
    obtain ⟨k, v⟩ := kv
    cases v with
    | str s =>
      simp only [AddContract.collect] at h
      refine ih _ h (fun x hx => hl x (List.mem_cons_of_mem _ hx)) ?_
      intro x hx
      rcases entriesInsert_mem _ _ _ _ hx with h1 | h1
      · rw [h1]
        exact ⟨hl (k, Json.str s) (List.mem_cons_self _ _), ValidUTF8_toValidUTF8 s⟩
      · exact hacc x h1
    | null => simp [AddContract.collect] at h
    | bool b => simp [AddContract.collect] at h
    | num n => simp [AddContract.collect] at h
    | arr xs => simp [AddContract.collect] at h
    | obj kvs => simp [AddContract.collect] at h

theorem participants_valid (j : Json) (mapping : List (String × Json))
    (participants : List (String × String)) (hmap : assertMap j = some mapping)
    (hcol : AddContract.collect mapping [] = some participants) :
    ∀ kv, kv ∈ participants → ValidUTF8 kv.1 ∧ ValidUTF8 kv.2 :=
  collect_valid mapping [] participants hcol (assertMap_keys_valid j mapping hmap)
    (fun kv hkv => by cases hkv)

theorem newContract_WFBody (w c n : String) (participants : List (String × String))
    (h : (participants.map Prod.fst).Nodup)
    (hv : ∀ kv, kv ∈ participants → ValidUTF8 kv.1 ∧ ValidUTF8 kv.2) :
    (AddContract.newContract w c n participants).WFBody := by
  refine ⟨⟨?_, ?_, ?_⟩, ?_, ?_, ?_, ?_⟩
  · intro l hl
    simp only [AddContract.newContract, Option.some.injEq] at hl
    subst hl
    simp
  · intro l hl
    simp only [AddContract.newContract, Option.some.injEq] at hl
    subst hl
    exact h
  · intro l hl
    simp only [AddContract.newContract, Option.some.injEq] at hl
    subst hl
    simp
  · intro x hx
    cases hx
  · intro l hl
    simp only [AddContract.newContract, Option.some.injEq] at hl
    subst hl
    intro kv hkv
    cases hkv
  · intro l hl
    simp only [AddContract.newContract, Option.some.injEq] at hl
    subst hl
    exact hv
  · intro l hl
    simp only [AddContract.newContract, Option.some.injEq] at hl
    subst hl
    intro kv hkv
    cases hkv

theorem GetState_store_self (stub : ChaincodeStub) (c : String) (v : Bytes)
    (h : stub.getFault c = none) : (stub.store c v).GetState c = .ok (some v) := by
  simp [ChaincodeStub.GetState, ChaincodeStub.store, h]

theorem getFault_of_GetState (stub : ChaincodeStub) (c : String) (r : Option Bytes)
    (h : stub.GetState c = .ok r) : stub.getFault c = none ∧ stub.state c = r := by
  unfold ChaincodeStub.GetState at h
  split at h
  · simp at h
  · rename_i hf
    simp only [Except.ok.injEq] at h
    exact ⟨hf, h⟩

theorem sliceAppend_eq {α : Type} (s : Slice α) (x : α) :
    sliceAppend s x = some (s.elems ++ [x]) := by
  cases s <;> rfl

theorem issue_events (c c1 : Contract) (eventType docType docId : String)
    (h : RegisterDocumentEvent.issue c eventType docType docId = some c1) :
    c1.Events = c.Events := by
  unfold RegisterDocumentEvent.issue at h
  split at h
  · split at h
    · exact absurd h (by simp)
    · simp only [Option.some.injEq] at h
      subst h
      rfl
  · simp only [Option.some.injEq] at h
    subst h
    rfl

theorem update_eventsOf (K K2 : Contract) (d : String) (e : Event)
    (h : RegisterDocumentEvent.update K d e = some K2) :
    K2.eventsOf d = some ((K.eventsOf d).elems ++ [e]) ∧
      ∀ d2, d2 ≠ d → K2.eventsOf d2 = K.eventsOf d2 := by
  unfold RegisterDocumentEvent.update at h
  simp only at h
  split at h
  · exact absurd h (by simp)
  · rename_i c1 hc1
    have hev := issue_events _ _ _ _ _ hc1
    split at h
    · exact absurd h (by simp)
    · rename_i events hassign
      simp only [Option.some.injEq] at h
      subst h
      have h1 : c1.eventsOf d = K.eventsOf d := by simp [Contract.eventsOf, hev]
      rw [h1] at hassign
      cases hE : K.Events with
      | none => rw [hev, hE] at hassign; simp [GoMap.assign] at hassign
      | some l =>
        rw [hev, hE] at hassign
        simp only [GoMap.assign, Option.some.injEq] at hassign
        subst hassign
        refine ⟨?_, ?_⟩
        · simp [Contract.eventsOf, GoMap.lookup, entriesLookup_insert_self, sliceAppend_eq]
        · intro d2 hd2
          simp [Contract.eventsOf, GoMap.lookup, entriesLookup_insert_ne _ _ _ _ hd2, hE]

theorem contractAt_eq (stub : ChaincodeStub) (c : String) (b : Bytes) (K : Contract)
    (hg : stub.GetState c = .ok (some b)) (hK : jsonUnmarshalContract b = .ok K) :
    stub.contractAt c = some K := by
  simp [ChaincodeStub.contractAt, hg, hK]

theorem contractAt_inv (stub : ChaincodeStub) (c : String) (K : Contract)
    (h : stub.contractAt c = some K) :
    ∃ b, stub.GetState c = .ok (some b) ∧ jsonUnmarshalContract b = .ok K := by
  unfold ChaincodeStub.contractAt at h
  split at h
  · rename_i b hg
    split at h
    · rename_i K1 hK1
      simp only [Option.some.injEq] at h
      exact ⟨b, hg, h ▸ hK1⟩
    · simp at h
  · simp at h

theorem contractAt_WF (stub : ChaincodeStub) (c : String) (K : Contract)
    (h : stub.contractAt c = some K) : K.WF := by
  obtain ⟨b, -, hK⟩ := contractAt_inv stub c K h
  exact jsonUnmarshalContract_WF b K hK

theorem contractAt_store_self (stub : ChaincodeStub) (c : String) (K : Contract)
    (hf : stub.getFault c = none) (hK : K.WF) :
    (stub.store c (jsonMarshal K.toJson)).contractAt c = some K :=
  contractAt_eq _ c _ K (GetState_store_self stub c _ hf) (Contract_roundtrip K hK)

theorem contractAt_store_body (stub : ChaincodeStub) (c : String) (K : Contract)
    (hf : stub.getFault c = none) (hK : K.WFBody) :
    (stub.store c (jsonMarshal K.toJson)).contractAt c = some K.sanitized :=
  contractAt_eq _ c _ _ (GetState_store_self stub c _ hf) (Contract_roundtrip_body K hK)

theorem contractAt_step (scan : String → Bytes) (stub stub2 : ChaincodeStub)
    (c d ej : String) (p : Option Bytes)
    (h : RegisterDocumentEvent scan stub [c, d, ej] = (.ok p, stub2)) :
    ∃ K K2 e, stub.contractAt c = some K ∧ jsonUnmarshalEvent (scan ej) = .ok e ∧
      e.DocId = d ∧ RegisterDocumentEvent.update K d e = some K2 ∧
      stub2.contractAt c = some K2 := by
  obtain ⟨c1, d1, ej1, e, b, K, K2, hargs, he, hd, hg, hK, hu, -, -, hstub⟩ :=
    RegisterDocumentEvent_inv scan stub stub2 _ p h
  simp only [List.cons.injEq, and_true] at hargs
  obtain ⟨rfl, rfl, rfl⟩ := hargs
  refine ⟨K, K2, e, contractAt_eq stub c b K hg hK, he, hd, hu, ?_⟩
  rw [hstub]
  have hv := jsonUnmarshalEvent_Valid _ e he
  exact contractAt_store_self stub c K2 (getFault_of_GetState stub c _ hg).1
    (update_WF K K2 d e hu (jsonUnmarshalContract_WF b K hK) hv (hd ▸ hv.2.2.2.1))

theorem recordAll_events (scan : String → Bytes) (c : String) (calls : List (String × String))
    (stub stub1 : ChaincodeStub) (K : Contract)
    (hK : stub.contractAt c = some K) (hrun : recordAll scan c stub calls = some stub1) :
    ∃ K1, stub1.contractAt c = some K1 ∧
      ∀ d, (eventsFor scan d calls = [] → K1.eventsOf d = K.eventsOf d) ∧
        (eventsFor scan d calls ≠ [] →
          K1.eventsOf d = some ((K.eventsOf d).elems ++ eventsFor scan d calls)) ∧
        ∀ e ∈ eventsFor scan d calls, e.DocId = d := by
  induction calls generalizing stub K with
  | nil =>
    simp only [recordAll, Option.some.injEq] at hrun
    subst hrun
    exact ⟨K, hK, fun d => ⟨fun _ => rfl, fun h => absurd rfl h, by simp [eventsFor]⟩⟩
  | cons call rest ih =>
    obtain ⟨d0, ej⟩ := call
    simp only [recordAll] at hrun
    split at hrun
    · rename_i p stub2 hstep
      obtain ⟨K', K2, e, hK', he, hd, hu, hK2⟩ := contractAt_step scan stub stub2 c d0 ej p hstep
      rw [hK] at hK'
      simp only [Option.some.injEq] at hK'
      subst hK'
      obtain ⟨K1, hK1, hall⟩ := ih stub2 K2 hK2 hrun
      obtain ⟨hself, hother⟩ := update_eventsOf K K2 d0 e hu
      refine ⟨K1, hK1, ?_⟩
      intro d
      obtain ⟨h1, h2, h3⟩ := hall d
      by_cases hdd : d0 = d
      · subst hdd
        simp only [eventsFor, if_true, he]
        refine ⟨fun h => absurd h (by simp), fun _ => ?_, ?_⟩
        · by_cases hr : eventsFor scan d0 rest = []
          · rw [h1 hr, hself, hr]
          · rw [h2 hr, hself]
            simp [Slice.elems]
        · intro e1 he1
          simp only [List.mem_cons] at he1
          rcases he1 with rfl | he1
          · exact hd
          · exact h3 e1 he1
      · have hne : d ≠ d0 := fun e => hdd e.symm
        simp only [eventsFor, hdd, if_false]
        rw [← hother d hne]
        exact ⟨h1, h2, h3⟩
    · simp at hrun

theorem recordAll_parsed (scan : String → Bytes) (c d : String)
    (calls : List (String × String)) (stub stub1 : ChaincodeStub)
    (hrun : recordAll scan c stub calls = some stub1) :
    List.Forall₂ (fun call e => jsonUnmarshalEvent (scan call.2) = .ok e)
      (calls.filter (fun call => call.1 = d)) (eventsFor scan d calls) := by
  induction calls generalizing stub with
  | nil => exact List.Forall₂.nil
  | cons call rest ih =>
    obtain ⟨d0, ej⟩ := call
    simp only [recordAll] at hrun
    split at hrun
    · rename_i p stub2 hstep
      obtain ⟨K', K2, e, -, he, -, -, -⟩ := contractAt_step scan stub stub2 c d0 ej p hstep
      have hrest := ih stub2 hrun
      by_cases hdd : d0 = d
      · simp only [eventsFor, hdd, if_true, he, List.filter_cons, decide_True]
        exact List.Forall₂.cons (by simpa using he) hrest
      · simp only [eventsFor, hdd, if_false, List.filter_cons, decide_False]
        exact hrest
    · simp at hrun

theorem GetEventsForDocument_eq (stub : ChaincodeStub) (c d : String) (K : Contract)
    (evs : List Event) (hK : stub.contractAt c = some K) (hev : K.eventsOf d = some evs) :
    GetEventsForDocument stub [c, d]
      = (.ok (some (jsonMarshal (encSlice Event.toJson (some evs)))), stub) := by
  obtain ⟨b, hg, hb⟩ := contractAt_inv stub c K hK
  simp [GetEventsForDocument, hg, hb, hev]

theorem update_docType (K K2 : Contract) (d : String) (e : Event)
    (h : RegisterDocumentEvent.update K d e = some K2) (hissue : e.EventType = "Issue") :
    K2.DocTypeToDocIdMapping.lookup e.DocType = some d := by
  unfold RegisterDocumentEvent.update at h
  simp only [RegisterDocumentEvent.issue, hissue, if_true] at h
  cases hM : K.DocTypeToDocIdMapping with
  | none => simp [hM, GoMap.assign] at h
  | some l =>
    simp only [hM, GoMap.assign] at h
    split at h
    · exact absurd h (by simp)
    · rename_i events hev
      simp only [Option.some.injEq] at h
      subst h
      simp [GoMap.lookup, entriesLookup_insert_self]

theorem contractAt_store_ne (stub : ChaincodeStub) (c c2 : String) (v : Bytes)
    (h : c ≠ c2) : (stub.store c2 v).contractAt c = stub.contractAt c := by
  simp [ChaincodeStub.contractAt, ChaincodeStub.GetState, ChaincodeStub.store, h]

theorem contractAt_created (scan : String → Bytes) (stub : ChaincodeStub)
    (w c n m : String)
    (h : (AddContract scan stub [w, c, n, m]).1 = .ok none) :
    ∃ participants, (AddContract scan stub [w, c, n, m]).2.contractAt c
      = some (AddContract.newContract (toValidUTF8 w) (toValidUTF8 c) (toValidUTF8 n)
          participants) := by
  have hpair : AddContract scan stub [w, c, n, m]
      = (.ok none, (AddContract scan stub [w, c, n, m]).2) := by
    rw [← h]
  obtain ⟨w1, c1, n1, m1, mapping, participants, hargs, hg, hmap, hcol, -, -, -, hstub⟩ :=
    AddContract_inv scan stub _ _ none hpair
  simp only [List.cons.injEq, and_true] at hargs
  obtain ⟨rfl, rfl, rfl, rfl⟩ := hargs
  refine ⟨participants, ?_⟩
  rw [hstub]
  exact contractAt_store_body stub c _ (getFault_of_GetState stub c _ hg).1
    (newContract_WFBody w c n participants
      (participants_lookup (scan m) mapping participants hmap hcol "").2
      (participants_valid _ mapping participants hmap hcol))

theorem update_Filed (K K2 : Contract) (d : String) (e : Event)
    (h : RegisterDocumentEvent.update K d e = some K2) (hd : e.DocId = d) (hK : K.Filed) :
    K2.Filed := by
  obtain ⟨hself, hother⟩ := update_eventsOf K K2 d e h
  intro d2 e2 he2
  by_cases hdd : d2 = d
  · subst hdd
    rw [hself] at he2
    simp only [Slice.elems, List.mem_append, List.mem_singleton] at he2
    rcases he2 with he2 | rfl
    · exact hK d2 e2 he2
    · exact hd
  · rw [hother d2 hdd] at he2
    exact hK d2 e2 he2

theorem Reachable_Filed (scan : String → Bytes) (c : String) (stub : ChaincodeStub)
    (h : Reachable scan c stub) : ∃ K, stub.contractAt c = some K ∧ K.Filed := by
  induction h with
  | created stub w n m hok =>
    obtain ⟨participants, hK⟩ := contractAt_created scan stub w c n m hok
    refine ⟨_, hK, ?_⟩
    intro d e he
    simp [Contract.eventsOf, AddContract.newContract, GoMap.lookup, entriesLookup,
      Slice.elems] at he
  | recorded stub args _ ih =>
    obtain ⟨K, hK, hF⟩ := ih
    rcases RegisterDocumentEvent_cases scan stub args with hsame | ⟨p, hp⟩
    · rw [hsame]
      exact ⟨K, hK, hF⟩
    · have hpair : RegisterDocumentEvent scan stub args
          = (.ok p, (RegisterDocumentEvent scan stub args).2) := by
        rw [← hp]
      obtain ⟨c1, d, ej, e, b, K1, K2, hargs, he, hd, hg, hK1, hu, -, -, hstub⟩ :=
        RegisterDocumentEvent_inv scan stub _ args p hpair
      by_cases hc : c = c1
      · subst hc
        subst hargs
        obtain ⟨K', K2', e', hK', he', hd', hu', hK2'⟩ :=
          contractAt_step scan stub _ c d ej p hpair
        rw [hK] at hK'
        simp only [Option.some.injEq] at hK'
        subst hK'
        exact ⟨K2', hK2', update_Filed K K2' d e' hu' hd' hF⟩
      · rw [hstub, contractAt_store_ne stub c c1 _ hc]
        exact ⟨K, hK, hF⟩

theorem update_isSome_iff (K : Contract) (d : String) (e : Event) :
    (∃ K2, RegisterDocumentEvent.update K d e = some K2) ↔
      K.Events ≠ none ∧ (e.EventType = "Issue" → K.DocTypeToDocIdMapping ≠ none) := by
  unfold RegisterDocumentEvent.update RegisterDocumentEvent.issue
  by_cases hissue : e.EventType = "Issue"
  · cases hM : K.DocTypeToDocIdMapping with
    | none => simp [hissue, GoMap.assign]
    | some l =>
      cases hE : K.Events with
      | none => simp [hissue, GoMap.assign, hE]
      | some evs => simp [hissue, GoMap.assign, hE]
  · cases hE : K.Events with
    | none => simp [hissue, GoMap.assign, hE]
    | some evs => simp [hissue, GoMap.assign, hE]

theorem ContractState_setField_Valid (k : String) (v : Json) (s s1 : ContractState)
    (h : ContractState.setField k v s = .ok s1) (hs : s.Valid) : s1.Valid := by
  obtain ⟨h1, h2⟩ := hs
  unfold ContractState.setField at h
  split at h
  · obtain ⟨a, ha, rfl⟩ := withField_ok _ _ _ h
    exact ⟨decString_valid _ _ _ ha h1, h2⟩
  split at h
  · obtain ⟨a, ha, rfl⟩ := withField_ok _ _ _ h
    exact ⟨h1, decString_valid _ _ _ ha h2⟩
  · simp only [Except.ok.injEq] at h
    exact h ▸ ⟨h1, h2⟩

theorem jsonUnmarshalContractState_Valid (b : Bytes) (cfg : ContractState)
    (h : jsonUnmarshalContractState b = .ok cfg) : cfg.Valid :=
  jsonUnmarshal_inv ContractState.setField ContractState.Valid ContractState_setField_Valid
    _ _ b h ⟨rfl, rfl⟩

theorem ContractState_roundtrip (cfg : ContractState) (hv : cfg.Valid) :
    jsonUnmarshalContractState (jsonMarshal cfg.toJson) = .ok cfg := by
  obtain ⟨h1, h2⟩ := hv
  cases cfg with
  | mk a1 a2 =>
  have h1 : toValidUTF8 a1 = a1 := h1
  have h2 : toValidUTF8 a2 = a2 := h2
  have key : jsonUnmarshalContractState (jsonMarshal (ContractState.mk a1 a2).toJson)
      = .ok (ContractState.mk (toValidUTF8 (toValidUTF8 a1))
          (toValidUTF8 (toValidUTF8 a2))) := rfl
  rw [key, h1, h2, h1, h2]

/-! ## Failed calls leave the ledger alone -/

theorem Init_cases (scan : String → Bytes) (stub : ChaincodeStub) (function : String)
    (args : List String) :
    (Init scan stub function args).2 = stub ∨
      ∃ p, (Init scan stub function args).1 = .ok p := by
  unfold Init
  dsimp only
  repeat' split
  all_goals first
    | (left; rfl)
    | (right; exact ⟨_, rfl⟩)

theorem AddContract_cases (scan : String → Bytes) (stub : ChaincodeStub)
    (args : List String) :
    (AddContract scan stub args).2 = stub ∨
      ∃ p, (AddContract scan stub args).1 = .ok p := by
  unfold AddContract
  dsimp only
  repeat' split
  all_goals first
    | (left; rfl)
    | (right; exact ⟨_, rfl⟩)

theorem checkActors_no_error (M : GoMap String) (actors : List Actor)
    (h : (IsValidContract.checkActors M actors).2 = none) :
    IsValidContract.checkActors M actors = (true, none) := by
  induction actors with
  | nil => rfl
  | cons a rest ih =>
    simp only [IsValidContract.checkActors] at h ⊢
    split
    · rename_i v hv
      rw [hv] at h
      exact ih h
    · rename_i hv
      rw [hv] at h
      simp at h

theorem IsValidContract_no_error (stub : ChaincodeStub) (contract : Contract)
    (h : (IsValidContract stub contract).2 = none) :
    IsValidContract stub contract = (true, none) := by
  unfold IsValidContract at h ⊢
  dsimp only at h ⊢
  split
  · rename_i err herr
    rw [herr] at h
    simp at h
  · rename_i b hb
    rw [hb] at h
    dsimp only at h
    split
    · rename_i err herr
      rw [herr] at h
      simp at h
    · rename_i wfIO hw
      rw [hw] at h
      exact checkActors_no_error _ _ h

theorem IsValidContract_ignores_workflowId (stub : ChaincodeStub) (contract : Contract)
    (w : String) :
    IsValidContract stub { contract with WorkflowId := w } = IsValidContract stub contract := by
  rfl

theorem AddContract_outcome_ignores_workflowId (scan : String → Bytes) (stub : ChaincodeStub)
    (w1 w2 c n m : String) :
    (AddContract scan stub [w1, c, n, m]).1 = (AddContract scan stub [w2, c, n, m]).1 := by
  have hv : ∀ participants,
      IsValidContract stub (AddContract.newContract w1 c n participants)
        = IsValidContract stub (AddContract.newContract w2 c n participants) := by
    intro participants
    rfl
  cases hg : stub.GetState c with
  | error e => simp [AddContract, hg]
  | ok r =>
    cases r with
    | some v => simp [AddContract, hg]
    | none =>
      cases hm : assertMap (AddContract.decoded (scan m)) with
      | none => simp [AddContract, hg, hm]
      | some mapping =>
        cases hc : AddContract.collect mapping [] with
        | none => simp [AddContract, hg, hm, hc]
        | some participants =>
          cases hp : stub.putFault c with
          | some e =>
            simp only [AddContract, hg, hm, hc, hv participants, ChaincodeStub.PutState, hp]
          | none =>
            simp only [AddContract, hg, hm, hc, hv participants, ChaincodeStub.PutState, hp]
            split <;> rfl

theorem Init_inv (scan : String → Bytes) (stub stub1 : ChaincodeStub) (function : String)
    (args : List String) (p : Option Bytes)
    (h : Init scan stub function args = (.ok p, stub1)) :
    ∃ arg cfg, args = [arg] ∧ jsonUnmarshalContractState (scan arg) = .ok cfg ∧
      cfg.Version = MYVERSION ∧ cfg.WorkflowTemplateCC ≠ "" ∧
      stub.putFault WORKFLOW_TEMPLATE_KEY = none ∧ p = none ∧
      stub1 = stub.store WORKFLOW_TEMPLATE_KEY (jsonMarshal cfg.toJson) := by
  unfold Init at h
  split at h
  · rename_i arg
    split at h
    · simp at h
    · rename_i cfg hcfg
      split at h
      · simp at h
      · rename_i hv
        simp only [ne_eq, not_not] at hv
        split at h
        · simp at h
        · rename_i hcc
          unfold ChaincodeStub.PutState at h
          dsimp only at h
          split at h
          · simp at h
          · rename_i stub2 hput
            simp only [Prod.mk.injEq, Outcome.ok.injEq] at h
            split at hput
            · simp at hput
            · rename_i hpf
              simp only [Except.ok.injEq] at hput
              exact ⟨arg, cfg, rfl, hcfg, hv, hcc, hpf, h.1.symm, by rw [← h.2, ← hput]⟩
  · simp at h

theorem AddSampleWfIOJson_inv (scan : String → Bytes) (stub stub1 : ChaincodeStub)
    (args : List String) (p : Option Bytes)
    (h : AddSampleWfIOJson scan stub args = (.ok p, stub1)) :
    ∃ arg rest, args = arg :: rest ∧ stub.putFault WORKFLOW_TEMPLATE_KEY = none ∧
      p = none ∧ stub1 = stub.store WORKFLOW_TEMPLATE_KEY (scan arg) := by
  unfold AddSampleWfIOJson at h
  split at h
  · simp at h
  · rename_i arg rest
    unfold ChaincodeStub.PutState at h
    split at h
    · simp at h
    · rename_i stub2 hput
      simp only [Prod.mk.injEq, Outcome.ok.injEq] at h
      split at hput
      · simp at hput
      · rename_i hpf
        simp only [Except.ok.injEq] at hput
        exact ⟨arg, rest, rfl, hpf, h.1.symm, by rw [← h.2, ← hput]⟩

theorem update_documents (K K2 : Contract) (d : String) (e : Event)
    (h : RegisterDocumentEvent.update K d e = some K2) :
    (e.EventType = "Issue" → K2.Documents = some (K.Documents.elems ++ [d])) ∧
    (e.EventType ≠ "Issue" →
      K2.Documents = K.Documents ∧ K2.DocTypeToDocIdMapping = K.DocTypeToDocIdMapping) := by
  unfold RegisterDocumentEvent.update RegisterDocumentEvent.issue at h
  dsimp only at h
  by_cases hissue : e.EventType = "Issue"
  · simp only [hissue, if_true] at h
    refine ⟨fun _ => ?_, fun hne => absurd hissue hne⟩
    split at h
    · exact absurd h (by simp)
    · rename_i c1 hc1
      split at hc1
      · exact absurd hc1 (by simp)
      · rename_i mapping hm
        simp only [Option.some.injEq] at hc1
        subst hc1
        split at h
        · exact absurd h (by simp)
        · simp only [Option.some.injEq] at h
          subst h
          simp [sliceAppend_eq]
  · simp only [hissue, if_false] at h
    refine ⟨fun hi => absurd hi hissue, fun _ => ?_⟩
    split at h
    · exact absurd h (by simp)
    · simp only [Option.some.injEq] at h
      subst h
      exact ⟨rfl, rfl⟩

theorem update_frame (K K2 : Contract) (d : String) (e : Event)
    (h : RegisterDocumentEvent.update K d e = some K2) :
    K2.WorkflowId = K.WorkflowId ∧ K2.ContractName = K.ContractName ∧
      K2.ContractId = K.ContractId ∧
      K2.ParticipantRoleToInstanceMapping = K.ParticipantRoleToInstanceMapping ∧
      ∀ d2, d2 ≠ d → K2.Events.lookup d2 = K.Events.lookup d2 := by
  unfold RegisterDocumentEvent.update at h
  dsimp only at h
  split at h
  · exact absurd h (by simp)
  · rename_i c1 hc1
    have hev := issue_events _ _ _ _ _ hc1
    have hfields : c1.WorkflowId = K.WorkflowId ∧ c1.ContractName = K.ContractName ∧
        c1.ContractId = K.ContractId ∧
        c1.ParticipantRoleToInstanceMapping = K.ParticipantRoleToInstanceMapping := by
      unfold RegisterDocumentEvent.issue at hc1
      split at hc1
      · split at hc1
        · exact absurd hc1 (by simp)
        · simp only [Option.some.injEq] at hc1
          subst hc1
          exact ⟨rfl, rfl, rfl, rfl⟩
      · simp only [Option.some.injEq] at hc1
        subst hc1
        exact ⟨rfl, rfl, rfl, rfl⟩
    split at h
    · exact absurd h (by simp)
    · rename_i events hassign
      simp only [Option.some.injEq] at h
      subst h
      refine ⟨hfields.1, hfields.2.1, hfields.2.2.1, hfields.2.2.2, ?_⟩
      intro d2 hd2
      cases hE : c1.Events with
      | none => rw [hE] at hassign; simp [GoMap.assign] at hassign
      | some l =>
        rw [hE] at hassign
        simp only [GoMap.assign, Option.some.injEq] at hassign
        subst hassign
        rw [← hev, hE]
        simp [GoMap.lookup, entriesLookup_insert_ne _ _ _ _ hd2]

/-! ## Invariants of reachable ledgers -/

theorem Reachable_invariant (scan : String → Bytes) (c : String) (P : Contract → Prop)
    (hnew : ∀ w i n participants, P (AddContract.newContract w i n participants))
    (hstep : ∀ K K2 d e, RegisterDocumentEvent.update K d e = some K2 → e.DocId = d →
      P K → P K2)
    (stub : ChaincodeStub) (h : Reachable scan c stub) :
    ∃ K, stub.contractAt c = some K ∧ P K := by
  induction h with
  | created stub w n m hok =>
    obtain ⟨participants, hK⟩ := contractAt_created scan stub w c n m hok
    exact ⟨_, hK, hnew _ _ _ participants⟩
  | recorded stub args _ ih =>
    obtain ⟨K, hK, hP⟩ := ih
    rcases RegisterDocumentEvent_cases scan stub args with hsame | ⟨p, hp⟩
    · rw [hsame]
      exact ⟨K, hK, hP⟩
    · have hpair : RegisterDocumentEvent scan stub args
          = (.ok p, (RegisterDocumentEvent scan stub args).2) := by
        rw [← hp]
      obtain ⟨c1, d, ej, e, b, K1, K2, hargs, he, hd, hg, hK1, hu, -, -, hstub⟩ :=
        RegisterDocumentEvent_inv scan stub _ args p hpair
      by_cases hc : c = c1
      · subst hc
        subst hargs
        obtain ⟨K', K2', e', hK', he', hd', hu', hK2'⟩ :=
          contractAt_step scan stub _ c d ej p hpair
        rw [hK] at hK'
        simp only [Option.some.injEq] at hK'
        subst hK'
        exact ⟨K2', hK2', hstep K K2' d e' hu' hd' hP⟩
      · rw [hstub, contractAt_store_ne stub c c1 _ hc]
        exact ⟨K, hK, hP⟩

theorem issueEvents_append (evs : List Event) (e : Event) :
    issueEvents (evs ++ [e])
      = issueEvents evs + (if e.EventType = "Issue" then 1 else 0) := by
  unfold issueEvents
  rw [List.filter_append, List.length_append]
  by_cases h : e.EventType = "Issue"
  · simp [h]
  · simp [h]

theorem issueTotal_insert (k : String) (v : Slice Event) (l : List (String × Slice Event)) :
    issueTotal (entriesInsert k v l)
        + issueEvents (match entriesLookup k l with
            | some old => old.elems
            | none => [])
      = issueTotal l + issueEvents v.elems := by
  induction l with
  | nil => simp [entriesInsert, entriesLookup, issueTotal, issueEvents]
  | cons kv rest ih =>
    obtain ⟨k1, v1⟩ := kv
    by_cases h : k1 = k
    · simp only [entriesInsert, h, if_true, entriesLookup, issueTotal]
      omega
    · simp only [entriesInsert, h, if_false, entriesLookup, issueTotal]
      omega

theorem update_issueCount (K K2 : Contract) (d : String) (e : Event)
    (h : RegisterDocumentEvent.update K d e = some K2) :
    K2.issueCount = K.issueCount + (if e.EventType = "Issue" then 1 else 0) := by
  unfold RegisterDocumentEvent.update at h
  dsimp only at h
  split at h
  · exact absurd h (by simp)
  · rename_i c1 hc1
    have hev := issue_events _ _ _ _ _ hc1
    split at h
    · exact absurd h (by simp)
    · rename_i events hassign
      simp only [Option.some.injEq] at h
      subst h
      cases hE : K.Events with
      | none => rw [hev, hE] at hassign; simp [GoMap.assign] at hassign
      | some l =>
        have h1 : c1.eventsOf d = K.eventsOf d := by simp [Contract.eventsOf, hev]
        rw [hev, hE, h1] at hassign
        simp only [GoMap.assign, Option.some.injEq] at hassign
        subst hassign
        have hins := issueTotal_insert d (sliceAppend (K.eventsOf d) e) l
        have hold : (match entriesLookup d l with
            | some old => Slice.elems old
            | none => []) = (K.eventsOf d).elems := by
          simp only [Contract.eventsOf, GoMap.lookup, hE]
          cases entriesLookup d l with
          | none => rfl
          | some old => rfl
        rw [hold, sliceAppend_eq] at hins
        have happ : Slice.elems (some ((K.eventsOf d).elems ++ [e]))
            = (K.eventsOf d).elems ++ [e] := rfl
        rw [happ, issueEvents_append] at hins
        rw [sliceAppend_eq]
        simp only [Contract.issueCount, hE]
        omega

theorem update_docTypeMap (K K2 : Contract) (d : String) (e : Event)
    (h : RegisterDocumentEvent.update K d e = some K2) (hissue : e.EventType = "Issue")
    (t : String) :
    K2.DocTypeToDocIdMapping.lookup t
      = if t = e.DocType then some d else K.DocTypeToDocIdMapping.lookup t := by
  unfold RegisterDocumentEvent.update at h
  simp only [RegisterDocumentEvent.issue, hissue, if_true] at h
  cases hM : K.DocTypeToDocIdMapping with
  | none => simp [hM, GoMap.assign] at h
  | some l =>
    simp only [hM, GoMap.assign] at h
    split at h
    · exact absurd h (by simp)
    · simp only [Option.some.injEq] at h
      subst h
      by_cases ht : t = e.DocType
      · subst ht
        simp [GoMap.lookup, entriesLookup_insert_self]
      · simp [GoMap.lookup, entriesLookup_insert_ne _ _ _ _ ht, ht]

theorem update_Bookkept (K K2 : Contract) (d : String) (e : Event)
    (h : RegisterDocumentEvent.update K d e = some K2) (hK : K.Bookkept) : K2.Bookkept := by
  obtain ⟨hlen, hdocs, hmap⟩ := hK
  obtain ⟨hself, hother⟩ := update_eventsOf K K2 d e h
  obtain ⟨hdi, hdn⟩ := update_documents K K2 d e h
  have hcount := update_issueCount K K2 d e h
  have hkeep : ∀ d2, (∃ e2, e2 ∈ (K.eventsOf d2).elems ∧ e2.EventType = "Issue") →
      ∃ e2, e2 ∈ (K2.eventsOf d2).elems ∧ e2.EventType = "Issue" := by
    rintro d2 ⟨e2, he2, hi2⟩
    by_cases hdd : d2 = d
    · subst hdd
      refine ⟨e2, ?_, hi2⟩
      rw [hself]
      exact List.mem_append_left _ he2
    · rw [hother d2 hdd]
      exact ⟨e2, he2, hi2⟩
  by_cases hissue : e.EventType = "Issue"
  · have hD := hdi hissue
    refine ⟨?_, ?_, ?_⟩
    · rw [hcount, hD]
      show (K.Documents.elems ++ [d]).length = _
      rw [List.length_append, hlen]
      simp [hissue]
    · intro d2 hd2
      rw [hD] at hd2
      have hd2' : d2 ∈ K.Documents.elems ++ [d] := hd2
      simp only [List.mem_append, List.mem_singleton] at hd2'
      rcases hd2' with hd2' | rfl
      · exact hkeep d2 (hdocs d2 hd2')
      · refine ⟨e, ?_, hissue⟩
        rw [hself]
        exact List.mem_append_right _ (List.mem_singleton.2 rfl)
    · intro t x hx
      rw [update_docTypeMap K K2 d e h hissue t] at hx
      rw [hD]
      show x ∈ K.Documents.elems ++ [d]
      by_cases ht : t = e.DocType
      · simp only [ht, if_true, Option.some.injEq] at hx
        subst hx
        exact List.mem_append_right _ (List.mem_singleton.2 rfl)
      · simp only [ht, if_false] at hx
        exact List.mem_append_left _ (hmap t x hx)
  · obtain ⟨hD, hM⟩ := hdn hissue
    refine ⟨?_, ?_, ?_⟩
    · rw [hcount, hD]
      simp [hissue, hlen]
    · intro d2 hd2
      rw [hD] at hd2
      exact hkeep d2 (hdocs d2 hd2)
    · intro t x hx
      rw [hM] at hx
      rw [hD]
      exact hmap t x hx

theorem newContract_Bookkept (w c n : String) (participants : List (String × String)) :
    (AddContract.newContract w c n participants).Bookkept := by
  refine ⟨rfl, ?_, ?_⟩
  · intro d hd
    simp [AddContract.newContract, Contract.zero, Slice.elems] at hd
  · intro t x hx
    simp [AddContract.newContract, GoMap.lookup, entriesLookup] at hx

/-- On a ledger whose read and write of `contractId` do not fail, a three-argument
`RegisterDocumentEvent` call whose third argument parses as an event succeeds exactly
when the ids agree and no write to a map of the stored contract panics. -/
theorem RegisterDocumentEvent_succeeds_iff (scan : String → Bytes)
    (stub : ChaincodeStub) (contractId docId eventJson : String) (docEvent : Event)
    (hparse : jsonUnmarshalEvent (scan eventJson) = .ok docEvent)
    (hread : stub.getFault contractId = none)
    (hwrite : stub.putFault contractId = none) :
    ((∃ p, (RegisterDocumentEvent scan stub [contractId, docId, eventJson]).1 = .ok p) ↔
      (docEvent.DocId = docId ∧
        ∃ b K, stub.state contractId = some b ∧ jsonUnmarshalContract b = .ok K ∧
          K.Events ≠ none ∧
          (docEvent.EventType = "Issue" → K.DocTypeToDocIdMapping ≠ none))) ∧
    (stub.state contractId = none → docEvent.DocId = docId →
      RegisterDocumentEvent scan stub [contractId, docId, eventJson]
        = (.fail "ContractId: Could not get state from ledger", stub)) := by
  refine ⟨⟨?_, ?_⟩, ?_⟩
  · rintro ⟨p, hp⟩
    have hpair : RegisterDocumentEvent scan stub [contractId, docId, eventJson]
        = (.ok p, (RegisterDocumentEvent scan stub [contractId, docId, eventJson]).2) := by
      rw [← hp]
    obtain ⟨c1, d1, ej1, e, b, K, K2, hargs, he, hd, hg, hK, hu, -, -, -⟩ :=
      RegisterDocumentEvent_inv scan stub _ _ p hpair
    simp only [List.cons.injEq, and_true] at hargs
    obtain ⟨rfl, rfl, rfl⟩ := hargs
    rw [hparse] at he
    simp only [Except.ok.injEq] at he
    subst he
    obtain ⟨hE, hM⟩ := (update_isSome_iff K docId docEvent).1 ⟨K2, hu⟩
    exact ⟨hd, b, K, (getFault_of_GetState stub contractId _ hg).2, hK, hE, hM⟩
  · rintro ⟨hd, b, K, hst, hK, hE, hM⟩
    obtain ⟨K2, hu⟩ := (update_isSome_iff K docId docEvent).2 ⟨hE, hM⟩
    have hg : stub.GetState contractId = .ok (some b) := by
      simp [ChaincodeStub.GetState, hread, hst]
    rw [RegisterDocumentEvent_ok scan stub contractId docId eventJson docEvent b K K2
      hparse hd hg hK hu hwrite]
    exact ⟨none, rfl⟩
  · intro hst hd
    simp [RegisterDocumentEvent, hparse, hd, ChaincodeStub.GetState, hread, hst]

theorem GoMap_assign_ne_none {β : Type} (m m1 : GoMap β) (k : String) (v : β)
    (h : m.assign k v = some m1) : m1 ≠ none := by
  cases m with
  | none => simp [GoMap.assign] at h
  | some l =>
    simp only [GoMap.assign, Option.some.injEq] at h
    subst h
    simp

theorem update_MapsMade (K K2 : Contract) (d : String) (e : Event)
    (h : RegisterDocumentEvent.update K d e = some K2) (hK : K.MapsMade) : K2.MapsMade := by
  unfold RegisterDocumentEvent.update at h
  simp only at h
  split at h
  · exact absurd h (by simp)
  · rename_i c1 hc1
    have h1 : c1.DocTypeToDocIdMapping ≠ none := by
      unfold RegisterDocumentEvent.issue at hc1
      split at hc1
      · split at hc1
        · exact absurd hc1 (by simp)
        · rename_i mapping hm
          simp only [Option.some.injEq] at hc1
          subst hc1
          exact GoMap_assign_ne_none _ _ _ _ hm
      · simp only [Option.some.injEq] at hc1
        exact hc1 ▸ hK.2
    split at h
    · exact absurd h (by simp)
    · rename_i events hev
      simp only [Option.some.injEq] at h
      subst h
      exact ⟨GoMap_assign_ne_none _ _ _ _ hev, h1⟩

theorem Reachable_MapsMade (scan : String → Bytes) (c : String) (stub : ChaincodeStub)
    (h : Reachable scan c stub) : ∃ K, stub.contractAt c = some K ∧ K.MapsMade :=
  Reachable_invariant scan c Contract.MapsMade
    (fun w i n participants => ⟨by simp [AddContract.newContract],
      by simp [AddContract.newContract]⟩)
    (fun K K2 d e hu _ hK => update_MapsMade K K2 d e hu hK) stub h

theorem Reachable_NoEmptyList (scan : String → Bytes) (c : String) (stub : ChaincodeStub)
    (h : Reachable scan c stub) : ∃ K, stub.contractAt c = some K ∧ K.NoEmptyList := by
  refine Reachable_invariant scan c Contract.NoEmptyList ?_ ?_ stub h
  · intro w i n participants d
    simp [Contract.eventsOf, AddContract.newContract, GoMap.lookup, entriesLookup]
  · intro K K2 d e hu _ hK d2
    obtain ⟨hself, hother⟩ := update_eventsOf K K2 d e hu
    by_cases hdd : d2 = d
    · subst hdd
      rw [hself]
      simp
    · rw [hother d2 hdd]
      exact hK d2

/-! ## The claims -/

/-- C1: when a workflow template `T` is stored as the template (the ledger holds,
under the template key, bytes that unmarshal to `T`, and the read does not fail),
`IsValidContract` returns `(true, nil)` if and only if every actor name of `T.ActorList`
is a key of the contract's participant mapping; in particular it returns `(true, nil)`
for every mapping when the actor list has no element. -/
theorem C1_IsValidContract_iff_all_roles_mapped (stub : ChaincodeStub) (contract : Contract)
    (b : Bytes) (T : WorkflowIO)
    (hget : stub.getFault WORKFLOW_TEMPLATE_KEY = none)
    (hst : stub.state WORKFLOW_TEMPLATE_KEY = some b)
    (hT : jsonUnmarshalWorkflowIO b = .ok T) :
    (IsValidContract stub contract = (true, none) ↔
      ∀ actor ∈ T.ActorList.elems,
        (contract.ParticipantRoleToInstanceMapping.lookup actor.Name).isSome = true) ∧
    (T.ActorList.elems = [] → IsValidContract stub contract = (true, none)) := by
  rw [IsValidContract_eq stub contract b T hget hst hT]
  refine ⟨checkActors_true_iff _ _, ?_⟩
  intro h
  rw [h]
  rfl

/-- C1 at the sample ledger: the template has the actors `Exporter` and `Importer`, and
a contract that maps both is valid. -/
theorem C1_witness :
    (IsValidContract sampleLedger
        (AddContract.newContract "WF1" "C1" "Acme" [("Exporter", "E1"), ("Importer", "I1")])
        = (true, none) ↔
      ∀ actor ∈ Slice.elems
          (some [⟨"A1", "Exporter"⟩, ⟨"A2", "Importer"⟩] : Slice Actor),
        ((AddContract.newContract "WF1" "C1" "Acme"
          [("Exporter", "E1"), ("Importer", "I1")]).ParticipantRoleToInstanceMapping.lookup
            actor.Name).isSome = true) ∧
    (Slice.elems (some [⟨"A1", "Exporter"⟩, ⟨"A2", "Importer"⟩] : Slice Actor) = [] →
      IsValidContract sampleLedger
        (AddContract.newContract "WF1" "C1" "Acme" [("Exporter", "E1"), ("Importer", "I1")])
        = (true, none)) :=
  C1_IsValidContract_iff_all_roles_mapped sampleLedger
    (AddContract.newContract "WF1" "C1" "Acme" [("Exporter", "E1"), ("Importer", "I1")])
    (.doc sampleTemplate)
    { WorkflowIO.zero with ActorList := some [⟨"A1", "Exporter"⟩, ⟨"A2", "Importer"⟩] }
    rfl rfl rfl

/-- C2: when the ledger returns a stored value for `contractId`, `AddContract` with any
workflow id, contract name and role-mapping argument fails with
"ContractId already exists" and leaves the ledger as it was. -/
theorem C2_AddContract_duplicate_rejected (scan : String → Bytes) (stub : ChaincodeStub)
    (workflowId contractId contractName mapping : String) (stored : Bytes)
    (hread : stub.GetState contractId = .ok (some stored)) :
    AddContract scan stub [workflowId, contractId, contractName, mapping]
      = (.fail "ContractId already exists", stub) := by
  simp [AddContract, hread]

/-- C2 at the sample ledger after `C1` has been created: a second `addContract` for `C1`,
here with a role mapping that is not even JSON, is rejected. -/
theorem C2_witness :
    AddContract sampleScan ledgerC1 ["WF2", "C1", "Other", "not json"]
      = (.fail "ContractId already exists", ledgerC1) :=
  C2_AddContract_duplicate_rejected sampleScan ledgerC1 "WF2" "C1" "Other" "not json"
    (jsonMarshal (AddContract.newContract "WF1" "C1" "Acme"
      [("Exporter", "E1"), ("Importer", "I1")]).toJson) rfl


/-- C3 fails as stated: on the sample ledger `addContract("WF1", "C1", n, mapBothText)`
with the contract name `n = "Ac\xffme"` (one byte that is not valid UTF-8) succeeds, and
the query for `C1` then returns a contract whose `ContractName` is `"Ac\ufffdme"`, which
is not `n`. -/
theorem C3_counterexample :
    (AddContract sampleScan sampleLedger ["WF1", "C1", strayName, mapBothText]).1
      = .ok none ∧
    ∃ contractBytes contract,
      Query ledgerStrayName "getContract" ["C1"]
        = (.ok (some contractBytes), ledgerStrayName) ∧
      jsonUnmarshalContract contractBytes = .ok contract ∧
      contract.ContractName = replacedName ∧
      contract.ContractName ≠ strayName :=
  ⟨rfl, jsonMarshal (AddContract.newContract "WF1" "C1" strayName
      [("Exporter", "E1"), ("Importer", "I1")]).toJson,
    AddContract.newContract "WF1" "C1" replacedName [("Exporter", "E1"), ("Importer", "I1")],
    rfl, rfl, rfl, by decide⟩

/-- C3 as amended: after `AddContract` has succeeded with the arguments `(w, c, n, M)`,
a query for contract `c` (any query function other than `getEventsForDocument`) succeeds
and returns bytes that unmarshal to a contract whose `WorkflowId`, `ContractName` and
`ContractId` are `w`, `n` and `c` with every byte that is not valid UTF-8 replaced by
`U+FFFD` (so they are `w`, `n` and `c` themselves when these are valid UTF-8), with no
documents (the `nil` slice), an empty `Events` map, an empty `DocTypeToDocIdMapping` and a
participant mapping that gives every role the instance the argument `M` gives it. -/
theorem C3_query_returns_contract_as_marshalled (scan : String → Bytes)
    (stub stub1 : ChaincodeStub) (w c n m function : String) (p : Option Bytes)
    (hadd : AddContract scan stub [w, c, n, m] = (.ok p, stub1))
    (hfn : function ≠ "getEventsForDocument") :
    ∃ contractBytes contract,
      Query stub1 function [c] = (.ok (some contractBytes), stub1) ∧
      jsonUnmarshalContract contractBytes = .ok contract ∧
      contract.WorkflowId = toValidUTF8 w ∧ contract.ContractName = toValidUTF8 n ∧
      contract.ContractId = toValidUTF8 c ∧
      (ValidUTF8 w → contract.WorkflowId = w) ∧ (ValidUTF8 n → contract.ContractName = n) ∧
      (ValidUTF8 c → contract.ContractId = c) ∧
      contract.Documents = none ∧ contract.Events = some [] ∧
      contract.DocTypeToDocIdMapping = some [] ∧
      ∀ role, contract.ParticipantRoleToInstanceMapping.lookup role
        = roleInstance (scan m) role := by
  obtain ⟨w1, c1, n1, m1, mapping, participants, hargs, hg, hmap, hcol, -, -, -, hstub⟩ :=
    AddContract_inv scan stub stub1 _ p hadd
  simp only [List.cons.injEq, and_true] at hargs
  obtain ⟨rfl, rfl, rfl, rfl⟩ := hargs
  have hf := (getFault_of_GetState stub c _ hg).1
  have hpart := participants_lookup (scan m) mapping participants hmap hcol
  have hwf := newContract_WFBody w c n participants (hpart "").2
    (participants_valid _ mapping participants hmap hcol)
  have hrt := Contract_roundtrip_body _ hwf
  have hget := GetState_store_self stub c
    (jsonMarshal (AddContract.newContract w c n participants).toJson) hf
  refine ⟨jsonMarshal (AddContract.newContract w c n participants).toJson,
    (AddContract.newContract w c n participants).sanitized, ?_, hrt, rfl, rfl, rfl,
    fun h => h, fun h => h, fun h => h, rfl, rfl, rfl, ?_⟩
  · subst hstub
    simp [Query, hfn, hget, hrt]
  · intro role
    exact (hpart role).1

/-- C3 as amended, at the sample ledger: `addContract("WF1", "C1", "Ac\xffme",
mapBothText)` succeeds and `getContract("C1")` then returns the contract with the name
`"Ac\ufffdme"`; the workflow id and the contract id, which are valid UTF-8, are
returned as given. -/
theorem C3_witness :
    (∃ contractBytes contract,
      Query ledgerStrayName "getContract" ["C1"]
        = (.ok (some contractBytes), ledgerStrayName) ∧
      jsonUnmarshalContract contractBytes = .ok contract ∧
      contract.WorkflowId = toValidUTF8 "WF1" ∧ contract.ContractName = toValidUTF8 strayName ∧
      contract.ContractId = toValidUTF8 "C1" ∧
      (ValidUTF8 "WF1" → contract.WorkflowId = "WF1") ∧
      (ValidUTF8 strayName → contract.ContractName = strayName) ∧
      (ValidUTF8 "C1" → contract.ContractId = "C1") ∧
      contract.Documents = none ∧ contract.Events = some [] ∧
      contract.DocTypeToDocIdMapping = some [] ∧
      ∀ role, contract.ParticipantRoleToInstanceMapping.lookup role
        = roleInstance (sampleScan mapBothText) role) ∧
    toValidUTF8 strayName = replacedName ∧ ValidUTF8 "WF1" ∧ ValidUTF8 "C1" :=
  ⟨C3_query_returns_contract_as_marshalled sampleScan sampleLedger ledgerStrayName
      "WF1" "C1" strayName mapBothText "getContract" none rfl (by decide),
    by decide, by unfold ValidUTF8; decide, by unfold ValidUTF8; decide⟩


/-- C4: (first part) every successful `RegisterDocumentEvent(c, d, e)` makes the new
`Events[d]` equal to the old `Events[d]` with `e` appended at the end; (second part)
when contract `c` has no event for document `d` and a run of successful
`RegisterDocumentEvent` calls on `c` (for `d` and for other documents, in any
interleaving) records at least one event for `d`, `GetEventsForDocument(c, d)` returns
the events recorded for `d` in call order: one per call for `d`, the event parsed from
that call's argument, each with `DocId = d`. -/
theorem C4_events_returned_in_append_order (scan : String → Bytes) (c d : String) :
    (∀ (stub stub2 : ChaincodeStub) (ej : String) (p : Option Bytes),
      RegisterDocumentEvent scan stub [c, d, ej] = (.ok p, stub2) →
      ∃ K K2 e, stub.contractAt c = some K ∧ stub2.contractAt c = some K2 ∧
        jsonUnmarshalEvent (scan ej) = .ok e ∧
        K2.eventsOf d = some ((K.eventsOf d).elems ++ [e])) ∧
    (∀ (stub stub1 : ChaincodeStub) (calls : List (String × String)) (K : Contract),
      stub.contractAt c = some K → (K.eventsOf d).elems = [] →
      recordAll scan c stub calls = some stub1 → eventsFor scan d calls ≠ [] →
      GetEventsForDocument stub1 [c, d]
        = (.ok (some (jsonMarshal (encSlice Event.toJson (some (eventsFor scan d calls))))),
            stub1) ∧
      List.Forall₂ (fun call e => jsonUnmarshalEvent (scan call.2) = .ok e)
        (calls.filter (fun call => call.1 = d)) (eventsFor scan d calls) ∧
      ∀ e ∈ eventsFor scan d calls, e.DocId = d) := by
  refine ⟨?_, ?_⟩
  · intro stub stub2 ej p h
    obtain ⟨K, K2, e, hK, he, -, hu, hK2⟩ := contractAt_step scan stub stub2 c d ej p h
    exact ⟨K, K2, e, hK, hK2, he, (update_eventsOf K K2 d e hu).1⟩
  · intro stub stub1 calls K hK hempty hrun hN
    obtain ⟨K1, hK1, hall⟩ := recordAll_events scan c calls stub stub1 K hK hrun
    obtain ⟨-, h2, h3⟩ := hall d
    have hev := h2 hN
    rw [hempty, List.nil_append] at hev
    exact ⟨GetEventsForDocument_eq stub1 c d K1 _ hK1 hev,
      recordAll_parsed scan c d calls stub stub1 hrun, h3⟩

/-- C4 at the sample ledger: after `issue(C1, x)`, `issue(C1, y)`, `addSignature(C1, x)`
the events of document `x` are the issue event followed by the signature event. -/
theorem C4_witness :
    GetEventsForDocument ledgerC1Events ["C1", "x"]
      = (.ok (some (jsonMarshal (encSlice Event.toJson
          (some (eventsFor sampleScan "x" sampleCalls))))), ledgerC1Events) ∧
    List.Forall₂ (fun call e => jsonUnmarshalEvent (sampleScan call.2) = .ok e)
      (sampleCalls.filter (fun call => call.1 = "x")) (eventsFor sampleScan "x" sampleCalls) ∧
    ∀ e ∈ eventsFor sampleScan "x" sampleCalls, e.DocId = "x" :=
  (C4_events_returned_in_append_order sampleScan "C1" "x").2 ledgerC1 ledgerC1Events
    sampleCalls
    (AddContract.newContract "WF1" "C1" "Acme" [("Exporter", "E1"), ("Importer", "I1")])
    rfl rfl rfl (by decide)


/-- C5: when the event parsed from the third argument has a `DocId` different from
the second argument, `RegisterDocumentEvent` fails with the id-mismatch error and
leaves the ledger as it was, whatever the ledger holds (no read takes place, so
the mismatch is reported also where the contract would not be found). -/
theorem C5_id_mismatch_rejected (scan : String → Bytes) (stub : ChaincodeStub)
    (contractId docId eventJson : String) (docEvent : Event)
    (hparse : jsonUnmarshalEvent (scan eventJson) = .ok docEvent)
    (hne : docEvent.DocId ≠ docId) :
    RegisterDocumentEvent scan stub [contractId, docId, eventJson]
      = (.fail "docId: DocIds in eventJson and args array dont match", stub) := by
  simp [RegisterDocumentEvent, hparse, hne]

/-- C5 at the sample ledger, which holds no contract `C9`: an event for document `x`
filed under `z` is rejected for the mismatch. -/
theorem C5_witness :
    RegisterDocumentEvent sampleScan sampleLedger ["C9", "z", issueXText]
      = (.fail "docId: DocIds in eventJson and args array dont match", sampleLedger) :=
  C5_id_mismatch_rejected sampleScan sampleLedger "C9" "z" issueXText issueXEvent
    rfl (by decide)


/-- C6 fails as stated: on the sample contract `C1`, which has no document of
type `Phyto`, the issue of `x` sets `DocTypeToDocIdMapping[Phyto] = x`, and the
following issue of `y` with the same type changes it to `y`. -/
theorem C6_counterexample :
    (ledgerC1.contractAt "C1").map (fun K => K.DocTypeToDocIdMapping.lookup "Phyto")
      = some none ∧
    (RegisterDocumentEvent sampleScan ledgerC1 ["C1", "x", issueXText]).1 = .ok none ∧
    (ledgerIssueX.contractAt "C1").map (fun K => K.DocTypeToDocIdMapping.lookup "Phyto")
      = some (some "x") ∧
    (RegisterDocumentEvent sampleScan ledgerIssueX ["C1", "y", issueYText]).1 = .ok none ∧
    (ledgerIssueXY.contractAt "C1").map (fun K => K.DocTypeToDocIdMapping.lookup "Phyto")
      = some (some "y") ∧
    (ledgerIssueXY.contractAt "C1").map (fun K => K.DocTypeToDocIdMapping.lookup "Phyto")
      ≠ some (some "x") :=
  ⟨rfl, rfl, rfl, rfl, rfl, by decide⟩

/-- C6 as amended (the last issue wins): when an `Issue` event with `DocType = t` and
`DocId = x` is recorded successfully and then a second `Issue` event with the same
`DocType = t` and `DocId = y` is recorded successfully, `DocTypeToDocIdMapping[t]` is `x`
after the first call and `y` after the second. -/
theorem C6_last_issue_wins (scan : String → Bytes) (stub stub1 stub2 : ChaincodeStub)
    (c x y ej1 ej2 t : String) (p1 p2 : Option Bytes) (e1 e2 : Event)
    (h1 : RegisterDocumentEvent scan stub [c, x, ej1] = (.ok p1, stub1))
    (h2 : RegisterDocumentEvent scan stub1 [c, y, ej2] = (.ok p2, stub2))
    (hparse1 : jsonUnmarshalEvent (scan ej1) = .ok e1)
    (hparse2 : jsonUnmarshalEvent (scan ej2) = .ok e2)
    (hissue1 : e1.EventType = "Issue") (hissue2 : e2.EventType = "Issue")
    (ht1 : e1.DocType = t) (ht2 : e2.DocType = t) :
    ∃ K1 K2, stub1.contractAt c = some K1 ∧ K1.DocTypeToDocIdMapping.lookup t = some x ∧
      stub2.contractAt c = some K2 ∧ K2.DocTypeToDocIdMapping.lookup t = some y := by
  obtain ⟨K, K1, e1', -, he1, -, hu1, hK1⟩ := contractAt_step scan stub stub1 c x ej1 p1 h1
  obtain ⟨K1', K2, e2', -, he2, -, hu2, hK2⟩ := contractAt_step scan stub1 stub2 c y ej2 p2 h2
  rw [hparse1] at he1
  rw [hparse2] at he2
  simp only [Except.ok.injEq] at he1 he2
  subst he1 he2
  refine ⟨K1, K2, hK1, ?_, hK2, ?_⟩
  · rw [← ht1]
    exact update_docType K K1 x e1 hu1 hissue1
  · rw [← ht2]
    exact update_docType K1' K2 y e2 hu2 hissue2

/-- C6 as amended, at the sample ledger: after the issues of `x` and then `y`, both of
type `Phyto`, the mapping gives `x` and then `y`. -/
theorem C6_witness :
    ∃ K1 K2, ledgerIssueX.contractAt "C1" = some K1 ∧
      K1.DocTypeToDocIdMapping.lookup "Phyto" = some "x" ∧
      ledgerIssueXY.contractAt "C1" = some K2 ∧
      K2.DocTypeToDocIdMapping.lookup "Phyto" = some "y" :=
  C6_last_issue_wins sampleScan ledgerC1 ledgerIssueX ledgerIssueXY "C1" "x" "y"
    issueXText issueYText "Phyto" none none
    issueXEvent issueYEvent rfl rfl rfl rfl rfl rfl rfl rfl

/-- C7: when a template `T` is stored as the template and some actor name of
`T.ActorList` is not a key of the participant mapping, `IsValidContract` returns `false`
with the error that names the first such actor in list order: if the actor list is
`pre ++ actor :: post`, every name in `pre` is a key and `actor.Name` is not, the error
is "`actor.Name` is missing in the mapping". -/
theorem C7_first_missing_role_named (stub : ChaincodeStub) (contract : Contract)
    (b : Bytes) (T : WorkflowIO) (pre post : List Actor) (actor : Actor)
    (hget : stub.getFault WORKFLOW_TEMPLATE_KEY = none)
    (hst : stub.state WORKFLOW_TEMPLATE_KEY = some b)
    (hT : jsonUnmarshalWorkflowIO b = .ok T)
    (hsplit : T.ActorList.elems = pre ++ actor :: post)
    (hpre : ∀ a ∈ pre,
      (contract.ParticipantRoleToInstanceMapping.lookup a.Name).isSome = true)
    (hmiss : contract.ParticipantRoleToInstanceMapping.lookup actor.Name = none) :
    IsValidContract stub contract
      = (false, some (actor.Name ++ " is missing in the mapping")) := by
  rw [IsValidContract_eq stub contract b T hget hst hT, hsplit]
  exact checkActors_first_missing _ pre post actor hpre hmiss

/-- C7 at the sample ledger: against the actor list `[Exporter, Importer]` the mapping
`{Exporter: E1}` fails naming `Importer`. -/
theorem C7_witness :
    IsValidContract sampleLedger
        (AddContract.newContract "WF1" "C2" "Beta" [("Exporter", "E1")])
      = (false, some ("Importer" ++ " is missing in the mapping")) :=
  C7_first_missing_role_named sampleLedger
    (AddContract.newContract "WF1" "C2" "Beta" [("Exporter", "E1")])
    (.doc sampleTemplate)
    { WorkflowIO.zero with ActorList := some [⟨"A1", "Exporter"⟩, ⟨"A2", "Importer"⟩] }
    [⟨"A1", "Exporter"⟩] [] ⟨"A2", "Importer"⟩ rfl rfl rfl rfl (by decide) rfl

/-- C8: in every ledger reachable from a successful `AddContract` of contract `c` by
`RegisterDocumentEvent` calls (with any arguments, whatever their outcome), the contract
stored under `c` files every event under its own document id: each event in `Events[d]`
has `DocId = d`. -/
theorem C8_events_filed_under_their_DocId (scan : String → Bytes) (c : String)
    (stub : ChaincodeStub) (h : Reachable scan c stub) :
    ∃ K, stub.contractAt c = some K ∧
      ∀ d e, e ∈ (K.eventsOf d).elems → e.DocId = d :=
  Reachable_Filed scan c stub h

/-- C8 at the sample ledger after the three sample calls. -/
theorem C8_witness :
    ∃ K, ledgerC1Events.contractAt "C1" = some K ∧
      ∀ d e, e ∈ (K.eventsOf d).elems → e.DocId = d :=
  C8_events_filed_under_their_DocId sampleScan "C1" ledgerC1Events
    (Reachable.recorded _ ["C1", "x", signXText]
      (Reachable.recorded _ ["C1", "y", issueYText]
        (Reachable.recorded _ ["C1", "x", issueXText]
          (Reachable.created sampleLedger "WF1" "Acme" mapBothText rfl))))


/-- C9 fails as stated: the sample config has the build version `1.0.0` and a
non-empty `workflowTemplateCC`, yet on a ledger whose write fails `Init` returns an
error. -/
theorem C9_counterexample :
    jsonUnmarshalContractState (sampleScan configText) = .ok ⟨"1.0.0", "wfcc1"⟩ ∧
    Init sampleScan readOnlyLedger "init" [configText]
      = (.fail "Contract state failed PUT to ledger: ledger unavailable", readOnlyLedger) :=
  ⟨rfl, rfl⟩

/-- C9 as amended: for a single-argument `Init` call whose argument parses as a config
and a ledger whose write under the well-known key does not fail, `Init` succeeds if
and only if the version is `1.0.0` and `workflowTemplateCC` is not empty; on success
the ledger after the call is the ledger before it with the marshalled config (which
unmarshals to the config) stored under the well-known key; on failure the ledger is
unchanged. -/
theorem C9_Init_succeeds_iff_config_valid (scan : String → Bytes) (stub : ChaincodeStub)
    (function arg : String) (cfg : ContractState)
    (hparse : jsonUnmarshalContractState (scan arg) = .ok cfg)
    (hwrite : stub.putFault WORKFLOW_TEMPLATE_KEY = none) :
    ((∃ p, (Init scan stub function [arg]).1 = .ok p) ↔
      (cfg.Version = "1.0.0" ∧ cfg.WorkflowTemplateCC ≠ "")) ∧
    (cfg.Version = "1.0.0" ∧ cfg.WorkflowTemplateCC ≠ "" →
      Init scan stub function [arg]
        = (.ok none, stub.store WORKFLOW_TEMPLATE_KEY (jsonMarshal cfg.toJson)) ∧
      jsonUnmarshalContractState (jsonMarshal cfg.toJson) = .ok cfg) ∧
    (¬ (cfg.Version = "1.0.0" ∧ cfg.WorkflowTemplateCC ≠ "") →
      (Init scan stub function [arg]).2 = stub) := by
  by_cases hv : cfg.Version = "1.0.0"
  · by_cases hcc : cfg.WorkflowTemplateCC = ""
    · simp [Init, hparse, MYVERSION, hv, hcc]
    · simp [Init, hparse, MYVERSION, hv, hcc, ChaincodeStub.PutState, hwrite,
        ContractState_roundtrip cfg (jsonUnmarshalContractState_Valid _ cfg hparse)]
  · simp [Init, hparse, MYVERSION, hv]

/-- C9 as amended, at the empty ledger: `init` with the sample config succeeds and
stores it. -/
theorem C9_witness :
    ((∃ p, (Init sampleScan emptyLedger "init" [configText]).1 = .ok p) ↔
      ((⟨"1.0.0", "wfcc1"⟩ : ContractState).Version = "1.0.0" ∧
        (⟨"1.0.0", "wfcc1"⟩ : ContractState).WorkflowTemplateCC ≠ "")) ∧
    ((⟨"1.0.0", "wfcc1"⟩ : ContractState).Version = "1.0.0" ∧
        (⟨"1.0.0", "wfcc1"⟩ : ContractState).WorkflowTemplateCC ≠ "" →
      Init sampleScan emptyLedger "init" [configText]
        = (.ok none, emptyLedger.store WORKFLOW_TEMPLATE_KEY
            (jsonMarshal (⟨"1.0.0", "wfcc1"⟩ : ContractState).toJson)) ∧
      jsonUnmarshalContractState (jsonMarshal (⟨"1.0.0", "wfcc1"⟩ : ContractState).toJson)
        = .ok ⟨"1.0.0", "wfcc1"⟩) ∧
    (¬ ((⟨"1.0.0", "wfcc1"⟩ : ContractState).Version = "1.0.0" ∧
        (⟨"1.0.0", "wfcc1"⟩ : ContractState).WorkflowTemplateCC ≠ "") →
      (Init sampleScan emptyLedger "init" [configText]).2 = emptyLedger) :=
  C9_Init_succeeds_iff_config_valid sampleScan emptyLedger "init" configText
    ⟨"1.0.0", "wfcc1"⟩ rfl rfl

/-- C10: on a ledger whose read and write of `contractId` do not fail, for a
three-argument `RegisterDocumentEvent` call whose third argument parses as an event:
(first part) when whatever contract is stored under `contractId` is well formed, that is
has both its maps made, the call succeeds if and only if `Event.DocId` equals `docId` and
a contract is stored under `contractId`; (second part) when nothing is stored under
`contractId` and the ids agree, the call fails with the not-found error; (third part) in
every ledger reachable from a successful `AddContract` of `contractId` by
`RegisterDocumentEvent` calls a well-formed contract is stored under `contractId`, so
there the call succeeds if and only if `Event.DocId` equals `docId`. -/
theorem C10_RegisterDocumentEvent_succeeds_iff_stored (scan : String → Bytes)
    (stub : ChaincodeStub) (contractId docId eventJson : String) (docEvent : Event)
    (hparse : jsonUnmarshalEvent (scan eventJson) = .ok docEvent)
    (hread : stub.getFault contractId = none)
    (hwrite : stub.putFault contractId = none) :
    ((∀ K, stub.contractAt contractId = some K → K.MapsMade) →
      ((∃ p, (RegisterDocumentEvent scan stub [contractId, docId, eventJson]).1 = .ok p) ↔
        (docEvent.DocId = docId ∧ ∃ K, stub.contractAt contractId = some K))) ∧
    (stub.state contractId = none → docEvent.DocId = docId →
      RegisterDocumentEvent scan stub [contractId, docId, eventJson]
        = (.fail "ContractId: Could not get state from ledger", stub)) ∧
    (Reachable scan contractId stub →
      (∃ K, stub.contractAt contractId = some K ∧ K.MapsMade) ∧
      ((∃ p, (RegisterDocumentEvent scan stub [contractId, docId, eventJson]).1 = .ok p) ↔
        docEvent.DocId = docId)) := by
  have key := RegisterDocumentEvent_succeeds_iff scan stub contractId docId eventJson
    docEvent hparse hread hwrite
  have hmade : (∀ K, stub.contractAt contractId = some K → K.MapsMade) →
      ((∃ p, (RegisterDocumentEvent scan stub [contractId, docId, eventJson]).1 = .ok p) ↔
        (docEvent.DocId = docId ∧ ∃ K, stub.contractAt contractId = some K)) := by
    intro hwf
    rw [key.1]
    constructor
    · rintro ⟨hd, b, K, hst, hK, -, -⟩
      have hg : stub.GetState contractId = .ok (some b) := by
        simp [ChaincodeStub.GetState, hread, hst]
      exact ⟨hd, K, contractAt_eq stub contractId b K hg hK⟩
    · rintro ⟨hd, K, hK⟩
      obtain ⟨b, hg, hb⟩ := contractAt_inv stub contractId K hK
      exact ⟨hd, b, K, (getFault_of_GetState stub contractId _ hg).2, hb,
        (hwf K hK).1, fun _ => (hwf K hK).2⟩
  refine ⟨hmade, key.2, ?_⟩
  intro hreach
  obtain ⟨K, hK, hM⟩ := Reachable_MapsMade scan contractId stub hreach
  refine ⟨⟨K, hK, hM⟩, ?_⟩
  rw [hmade (fun K1 hK1 => by
    rw [hK] at hK1
    simp only [Option.some.injEq] at hK1
    exact hK1 ▸ hM)]
  exact ⟨fun h => h.1, fun h => ⟨h, K, hK⟩⟩

/-- C10 at the sample ledger with contract `C1`, which `AddContract` has written: the
contract stored under `C1` is well formed, the issue of `x` succeeds as the ids agree,
and the same event for document `y` is rejected. -/
theorem C10_witness :
    (((∀ K, ledgerC1.contractAt "C1" = some K → K.MapsMade) →
      ((∃ p, (RegisterDocumentEvent sampleScan ledgerC1 ["C1", "x", issueXText]).1 = .ok p) ↔
        (issueXEvent.DocId = "x" ∧ ∃ K, ledgerC1.contractAt "C1" = some K))) ∧
    (ledgerC1.state "C1" = none → issueXEvent.DocId = "x" →
      RegisterDocumentEvent sampleScan ledgerC1 ["C1", "x", issueXText]
        = (.fail "ContractId: Could not get state from ledger", ledgerC1)) ∧
    (Reachable sampleScan "C1" ledgerC1 →
      (∃ K, ledgerC1.contractAt "C1" = some K ∧ K.MapsMade) ∧
      ((∃ p, (RegisterDocumentEvent sampleScan ledgerC1 ["C1", "x", issueXText]).1 = .ok p) ↔
        issueXEvent.DocId = "x"))) ∧
    Reachable sampleScan "C1" ledgerC1 ∧
    (RegisterDocumentEvent sampleScan ledgerC1 ["C1", "x", issueXText]).1 = .ok none ∧
    (RegisterDocumentEvent sampleScan ledgerC1 ["C1", "y", issueXText]).1
      = .fail "docId: DocIds in eventJson and args array dont match" ∧
    (RegisterDocumentEvent sampleScan sampleLedger ["C1", "x", issueXText]).1
      = .fail "ContractId: Could not get state from ledger" :=
  ⟨C10_RegisterDocumentEvent_succeeds_iff_stored sampleScan ledgerC1 "C1" "x" issueXText
      issueXEvent rfl rfl rfl,
    Reachable.created sampleLedger "WF1" "Acme" mapBothText rfl, rfl, rfl, rfl⟩

/-- C11: whatever the ledger and the argument list, a call of `Init`, `AddContract` or
`RegisterDocumentEvent` that returns an error leaves the ledger as it was; and
`AddContract` changes the ledger only when it succeeds, in which case the validation of
the contract it built has returned `(true, nil)` and the one write stores that contract
under `contractId`. -/
theorem C11_error_leaves_ledger_unchanged (scan : String → Bytes) (stub : ChaincodeStub)
    (function : String) (args : List String) :
    (∀ e, (Init scan stub function args).1 = .fail e →
      (Init scan stub function args).2 = stub) ∧
    (∀ e, (AddContract scan stub args).1 = .fail e → (AddContract scan stub args).2 = stub) ∧
    (∀ e, (RegisterDocumentEvent scan stub args).1 = .fail e →
      (RegisterDocumentEvent scan stub args).2 = stub) ∧
    ((AddContract scan stub args).2 ≠ stub →
      ∃ w c n m participants, args = [w, c, n, m] ∧
        IsValidContract stub (AddContract.newContract w c n participants) = (true, none) ∧
        AddContract scan stub args
          = (.ok none, stub.store c
              (jsonMarshal (AddContract.newContract w c n participants).toJson))) := by
  refine ⟨?_, ?_, ?_, ?_⟩
  · intro e he
    rcases Init_cases scan stub function args with h | ⟨p, hp⟩
    · exact h
    · rw [hp] at he
      exact absurd he (by simp)
  · intro e he
    rcases AddContract_cases scan stub args with h | ⟨p, hp⟩
    · exact h
    · rw [hp] at he
      exact absurd he (by simp)
  · intro e he
    rcases RegisterDocumentEvent_cases scan stub args with h | ⟨p, hp⟩
    · exact h
    · rw [hp] at he
      exact absurd he (by simp)
  · intro hne
    rcases AddContract_cases scan stub args with h | ⟨p, hp⟩
    · exact absurd h hne
    · have hpair : AddContract scan stub args = (.ok p, (AddContract scan stub args).2) := by
        rw [← hp]
      obtain ⟨w, c, n, m, mapping, participants, hargs, -, -, -, hvalid, -, hpnone, hstub⟩ :=
        AddContract_inv scan stub _ args p hpair
      refine ⟨w, c, n, m, participants, hargs, IsValidContract_no_error _ _ hvalid, ?_⟩
      rw [hpair, hpnone, hstub]

/-- C11 at the sample ledger: `addContract` with the mapping `{Exporter: E1}` fails in
validation (the role `Importer` is missing) and the ledger is unchanged. -/
theorem C11_witness :
    (AddContract sampleScan sampleLedger ["WF1", "C2", "Beta", mapExporterText]).1
      = .fail "Importer is missing in the mapping" ∧
    (AddContract sampleScan sampleLedger ["WF1", "C2", "Beta", mapExporterText]).2
      = sampleLedger :=
  ⟨rfl, (C11_error_leaves_ledger_unchanged sampleScan sampleLedger "init"
      ["WF1", "C2", "Beta", mapExporterText]).2.1 "Importer is missing in the mapping" rfl⟩

/-- C12: for a contract `c` stored by `AddContract` and updated by
`RegisterDocumentEvent` calls, and a document id `d`, `GetEventsForDocument(c, d)` fails
with "docId: Does not exist for contract" when `Events[d]` is absent or holds no event,
and otherwise returns the stored sequence marshalled; it never returns the empty list as
a successful result. -/
theorem C12_GetEventsForDocument_empty_is_error (scan : String → Bytes)
    (stub : ChaincodeStub) (c d : String) (h : Reachable scan c stub) :
    ∃ K, stub.contractAt c = some K ∧
      (K.Events.lookup d = none ∨ (K.eventsOf d).elems = [] →
        GetEventsForDocument stub [c, d]
          = (.fail "docId: Does not exist for contract", stub)) ∧
      ((K.eventsOf d).elems ≠ [] →
        GetEventsForDocument stub [c, d]
          = (.ok (some (jsonMarshal (.arr ((K.eventsOf d).elems.map Event.toJson)))),
              stub)) ∧
      (GetEventsForDocument stub [c, d]).1 ≠ .ok (some (jsonMarshal (.arr []))) := by
  obtain ⟨K, hK, hne⟩ := Reachable_NoEmptyList scan c stub h
  obtain ⟨b, hg, hb⟩ := contractAt_inv stub c K hK
  refine ⟨K, hK, ?_⟩
  cases hev : K.eventsOf d with
  | none =>
    have hfail : GetEventsForDocument stub [c, d]
        = (.fail "docId: Does not exist for contract", stub) := by
      simp [GetEventsForDocument, hg, hb, hev]
    refine ⟨fun _ => hfail, fun hx => absurd rfl hx, ?_⟩
    rw [hfail]
    simp
  | some evs =>
    have hevs : evs ≠ [] := fun he => hne d (by rw [hev, he])
    have hok : GetEventsForDocument stub [c, d]
        = (.ok (some (jsonMarshal (.arr (evs.map Event.toJson)))), stub) := by
      simp [GetEventsForDocument, hg, hb, hev, encSlice]
    refine ⟨?_, fun _ => hok, ?_⟩
    · rintro (hl | hl)
      · simp [Contract.eventsOf, hl] at hev
      · exact absurd hl hevs
    · rw [hok]
      cases evs with
      | nil => exact absurd rfl hevs
      | cons e rest => simp [jsonMarshal]

/-- C12 at the sample ledger after the issue of `x`: the events of document `x` of
contract `C1` are returned, and the query for document `z`, which has no event, fails. -/
theorem C12_witness :
    (∃ K, ledgerIssueX.contractAt "C1" = some K ∧
      (K.Events.lookup "x" = none ∨ (K.eventsOf "x").elems = [] →
        GetEventsForDocument ledgerIssueX ["C1", "x"]
          = (.fail "docId: Does not exist for contract", ledgerIssueX)) ∧
      ((K.eventsOf "x").elems ≠ [] →
        GetEventsForDocument ledgerIssueX ["C1", "x"]
          = (.ok (some (jsonMarshal (.arr ((K.eventsOf "x").elems.map Event.toJson)))),
              ledgerIssueX)) ∧
      (GetEventsForDocument ledgerIssueX ["C1", "x"]).1
        ≠ .ok (some (jsonMarshal (.arr [])))) ∧
    GetEventsForDocument ledgerIssueX ["C1", "x"]
      = (.ok (some (jsonMarshal (.arr [issueXEvent.toJson]))), ledgerIssueX) ∧
    GetEventsForDocument ledgerIssueX ["C1", "z"]
      = (.fail "docId: Does not exist for contract", ledgerIssueX) :=
  ⟨C12_GetEventsForDocument_empty_is_error sampleScan ledgerIssueX "C1" "x"
      (Reachable.recorded _ ["C1", "x", issueXText]
        (Reachable.created sampleLedger "WF1" "Acme" mapBothText rfl)),
    rfl, rfl⟩

/-- C13, the code at the failing inputs: on the sample ledger, where nothing is stored
under `C2`, `AddContract` panics when the role-mapping argument is not JSON
(`not json`), is JSON but not an object (`["Exporter","E1"]`), or has a nested value
(`{"Exporter":{"id":"E1"},"Importer":"I1"}`); no error result is returned. The ledger is
unchanged in each case. -/
theorem C13_AddContract_panics_on_bad_mapping :
    sampleLedger.GetState "C2" = .ok none ∧
    extraScan "not json" = .garbage ∧
    AddContract extraScan sampleLedger ["WF1", "C2", "Beta", "not json"]
      = (.panic, sampleLedger) ∧
    AddContract extraScan sampleLedger ["WF1", "C2", "Beta", listMappingText]
      = (.panic, sampleLedger) ∧
    AddContract extraScan sampleLedger ["WF1", "C2", "Beta", nestedMappingText]
      = (.panic, sampleLedger) :=
  ⟨rfl, rfl, rfl, rfl, rfl⟩

/-- C14, the code at the failing inputs: on the ledger that already holds contract
`C1`, the handler `AddContract` fails with "ContractId already exists" and the handler
`RegisterDocumentEvent` fails with the id-mismatch error, yet `Invoke` with the
operation names `addContract`, `issue`, `addSignature` and `read` returns `(nil, nil)`,
a success, for the same arguments. -/
theorem C14_Invoke_drops_handler_errors :
    AddContract sampleScan ledgerC1 ["WF2", "C1", "Other", mapBothText]
      = (.fail "ContractId already exists", ledgerC1) ∧
    Invoke sampleScan ledgerC1 "addContract" ["WF2", "C1", "Other", mapBothText]
      = (.ok none, ledgerC1) ∧
    RegisterDocumentEvent sampleScan ledgerC1 ["C1", "z", issueXText]
      = (.fail "docId: DocIds in eventJson and args array dont match", ledgerC1) ∧
    Invoke sampleScan ledgerC1 "issue" ["C1", "z", issueXText] = (.ok none, ledgerC1) ∧
    Invoke sampleScan ledgerC1 "addSignature" ["C1", "z", issueXText]
      = (.ok none, ledgerC1) ∧
    Invoke sampleScan ledgerC1 "read" ["C1", "z", issueXText] = (.ok none, ledgerC1) :=
  ⟨rfl, rfl, rfl, rfl, rfl, rfl⟩

/-- C15, the code at the failing input: on the ledger that `init` has set up, the
workflow template provider returns for `WF1` the template with the actors `Exporter` and
`Importer`, the mapping `{Exporter: E1}` does not cover `Importer`, and yet
`addContract(WF1, C2, Beta, {Exporter: E1})` succeeds and stores the contract: the
validation reads the value under `WORKFLOW_TEMPLATE_KEY` (here the config, which has
no actor list) and never asks the provider; on the sample ledger the result of the call
is the same for `WF1` and for any other workflow id. -/
theorem C15_validation_ignores_provider_template :
    GetWorkFlowTemplate sampleProvider ledgerInit "WF1" = .ok (some (.doc sampleTemplate)) ∧
    jsonUnmarshalWorkflowIO (.doc sampleTemplate)
      = .ok { WorkflowIO.zero with ActorList := some [⟨"A1", "Exporter"⟩, ⟨"A2", "Importer"⟩] } ∧
    roleInstance (sampleScan mapExporterText) "Importer" = none ∧
    ledgerInit.GetState "C2" = .ok none ∧
    (AddContract sampleScan ledgerInit ["WF1", "C2", "Beta", mapExporterText]).1 = .ok none ∧
    ((AddContract sampleScan ledgerInit ["WF1", "C2", "Beta", mapExporterText]).2.contractAt
        "C2").map (fun K => K.ParticipantRoleToInstanceMapping)
      = some (some [("Exporter", "E1")]) ∧
    (AddContract sampleScan sampleLedger ["WF1", "C2", "Beta", mapExporterText]).1
      = (AddContract sampleScan sampleLedger ["WF2", "C2", "Beta", mapExporterText]).1 :=
  ⟨rfl, rfl, rfl, rfl, rfl, rfl, rfl⟩

/-- C16 fails as stated: after `init` the entry under the well-known key unmarshals to
the config `{1.0.0, wfcc1}`, and a successful `addSampleWfIOJson` changes that entry (it
then unmarshals to the empty config); on the sample ledger contract validation reads
the template with the actors `Exporter` and `Importer`, and a successful `init` changes
what it reads (a value without actor list). -/
theorem C16_counterexample :
    ledgerInit.configAt = some ⟨"1.0.0", "wfcc1"⟩ ∧
    (AddSampleWfIOJson extraScan ledgerInit [templateText]).1 = .ok none ∧
    ledgerInitThenSample.configAt = some ⟨"", ""⟩ ∧
    ledgerInitThenSample.configAt ≠ ledgerInit.configAt ∧
    sampleLedger.templateActors = some (some [⟨"A1", "Exporter"⟩, ⟨"A2", "Importer"⟩]) ∧
    (Init sampleScan sampleLedger "init" [configText]).1 = .ok none ∧
    ledgerSampleThenInit.templateActors = some none ∧
    ledgerSampleThenInit.templateActors ≠ sampleLedger.templateActors :=
  ⟨rfl, rfl, rfl, by decide, rfl, rfl, rfl, by decide⟩

/-- C16 as amended: the config and the template placeholder are one ledger entry, the
one under `WORKFLOW_TEMPLATE_KEY`. A successful `AddSampleWfIOJson` stores its first
argument under that key, a successful `Init` stores the marshalled config under that
key; in both cases every other ledger entry keeps its value, and `GetSampleWfIOJson`
(when its read does not fail) then returns the bytes just stored. -/
theorem C16_config_and_template_share_one_entry (scan : String → Bytes)
    (stub stub1 : ChaincodeStub) (function : String) (args : List String)
    (p : Option Bytes) :
    (AddSampleWfIOJson scan stub args = (.ok p, stub1) →
      ∃ arg rest, args = arg :: rest ∧
        stub1 = stub.store WORKFLOW_TEMPLATE_KEY (scan arg) ∧
        (∀ k, k ≠ WORKFLOW_TEMPLATE_KEY → stub1.state k = stub.state k) ∧
        (stub.getFault WORKFLOW_TEMPLATE_KEY = none →
          GetSampleWfIOJson stub1 = .ok (some (scan arg)))) ∧
    (Init scan stub function args = (.ok p, stub1) →
      ∃ arg cfg, args = [arg] ∧ jsonUnmarshalContractState (scan arg) = .ok cfg ∧
        stub1 = stub.store WORKFLOW_TEMPLATE_KEY (jsonMarshal cfg.toJson) ∧
        (∀ k, k ≠ WORKFLOW_TEMPLATE_KEY → stub1.state k = stub.state k) ∧
        (stub.getFault WORKFLOW_TEMPLATE_KEY = none →
          GetSampleWfIOJson stub1 = .ok (some (jsonMarshal cfg.toJson)))) := by
  refine ⟨?_, ?_⟩
  · intro h
    obtain ⟨arg, rest, hargs, -, -, hstub⟩ := AddSampleWfIOJson_inv scan stub stub1 args p h
    refine ⟨arg, rest, hargs, hstub, ?_, ?_⟩
    · intro k hk
      simp [hstub, ChaincodeStub.store, hk]
    · intro hf
      simp [hstub, GetSampleWfIOJson, ChaincodeStub.GetState, ChaincodeStub.store, hf]
  · intro h
    obtain ⟨arg, cfg, hargs, hcfg, -, -, -, -, hstub⟩ := Init_inv scan stub stub1 function args p h
    refine ⟨arg, cfg, hargs, hcfg, hstub, ?_, ?_⟩
    · intro k hk
      simp [hstub, ChaincodeStub.store, hk]
    · intro hf
      simp [hstub, GetSampleWfIOJson, ChaincodeStub.GetState, ChaincodeStub.store, hf]

/-- C16 as amended, at the ledger `init` has set up: `addSampleWfIOJson(templateText)`
succeeds and stores the template under the key that held the config. -/
theorem C16_witness :
    ∃ arg rest, [templateText] = arg :: rest ∧
      ledgerInitThenSample = ledgerInit.store WORKFLOW_TEMPLATE_KEY (extraScan arg) ∧
      (∀ k, k ≠ WORKFLOW_TEMPLATE_KEY → ledgerInitThenSample.state k = ledgerInit.state k) ∧
      (ledgerInit.getFault WORKFLOW_TEMPLATE_KEY = none →
        GetSampleWfIOJson ledgerInitThenSample = .ok (some (extraScan arg))) :=
  (C16_config_and_template_share_one_entry extraScan ledgerInit ledgerInitThenSample "init"
    [templateText] none).1 rfl

/-- C17: for a successful `RegisterDocumentEvent(c, d, e)`: when `e.EventType` is
`Issue` the new `Documents` is the old `Documents` with `d` appended (whether or not
`d` was already in it); when it is anything else, `Documents` and
`DocTypeToDocIdMapping` are unchanged. The handlers `IssueDocument`, `AddSignature` and
`ReadDocument` give the same result as `RegisterDocumentEvent`, and `Invoke` ends with
the same ledger under the operation names `issue`, `addSignature` and `read`. -/
theorem C17_documents_follow_event_type (scan : String → Bytes) (stub stub2 : ChaincodeStub)
    (c d ej : String) (p : Option Bytes)
    (h : RegisterDocumentEvent scan stub [c, d, ej] = (.ok p, stub2)) :
    (∃ K K2 e, stub.contractAt c = some K ∧ stub2.contractAt c = some K2 ∧
      jsonUnmarshalEvent (scan ej) = .ok e ∧
      (e.EventType = "Issue" → K2.Documents = some (K.Documents.elems ++ [d])) ∧
      (e.EventType ≠ "Issue" →
        K2.Documents = K.Documents ∧
        K2.DocTypeToDocIdMapping = K.DocTypeToDocIdMapping)) ∧
    IssueDocument scan stub [c, d, ej] = (.ok p, stub2) ∧
    AddSignature scan stub [c, d, ej] = (.ok p, stub2) ∧
    ReadDocument scan stub [c, d, ej] = (.ok p, stub2) ∧
    Invoke scan stub "issue" [c, d, ej] = (.ok none, stub2) ∧
    Invoke scan stub "addSignature" [c, d, ej] = (.ok none, stub2) ∧
    Invoke scan stub "read" [c, d, ej] = (.ok none, stub2) := by
  obtain ⟨K, K2, e, hK, he, -, hu, hK2⟩ := contractAt_step scan stub stub2 c d ej p h
  obtain ⟨hissue, hother⟩ := update_documents K K2 d e hu
  refine ⟨⟨K, K2, e, hK, hK2, he, hissue, hother⟩, h, h, h, ?_, ?_, ?_⟩
  · simp [Invoke, IssueDocument, h, Invoke.finish]
  · simp [Invoke, AddSignature, h, Invoke.finish]
  · simp [Invoke, ReadDocument, h, Invoke.finish]

/-- C17 at the sample ledger: a second issue of document `x` on contract `C1` makes
`Documents` equal to `[x, x]`. -/
theorem C17_witness :
    ((∃ K K2 e, ledgerIssueX.contractAt "C1" = some K ∧
        ledgerIssueXX.contractAt "C1" = some K2 ∧
        jsonUnmarshalEvent (sampleScan issueXText) = .ok e ∧
        (e.EventType = "Issue" → K2.Documents = some (K.Documents.elems ++ ["x"])) ∧
        (e.EventType ≠ "Issue" →
          K2.Documents = K.Documents ∧
          K2.DocTypeToDocIdMapping = K.DocTypeToDocIdMapping)) ∧
      IssueDocument sampleScan ledgerIssueX ["C1", "x", issueXText]
        = (.ok none, ledgerIssueXX) ∧
      AddSignature sampleScan ledgerIssueX ["C1", "x", issueXText]
        = (.ok none, ledgerIssueXX) ∧
      ReadDocument sampleScan ledgerIssueX ["C1", "x", issueXText]
        = (.ok none, ledgerIssueXX) ∧
      Invoke sampleScan ledgerIssueX "issue" ["C1", "x", issueXText]
        = (.ok none, ledgerIssueXX) ∧
      Invoke sampleScan ledgerIssueX "addSignature" ["C1", "x", issueXText]
        = (.ok none, ledgerIssueXX) ∧
      Invoke sampleScan ledgerIssueX "read" ["C1", "x", issueXText]
        = (.ok none, ledgerIssueXX)) ∧
    (ledgerIssueXX.contractAt "C1").map (fun K => K.Documents) = some (some ["x", "x"]) :=
  ⟨C17_documents_follow_event_type sampleScan ledgerIssueX ledgerIssueXX "C1" "x"
    issueXText none rfl, rfl⟩

/-- C18: a successful `AddContract(w, c, n, M)` and a successful
`RegisterDocumentEvent(c, d, e)` change no ledger entry other than the one under `c`
(and leave the fault behaviour of the ledger as it was); a successful
`RegisterDocumentEvent` leaves `WorkflowId`, `ContractName`, `ContractId`,
`ParticipantRoleToInstanceMapping` and `Events[d2]` for every `d2` other than `d` of the
contract unchanged. -/
theorem C18_frame_of_successful_write (scan : String → Bytes) (stub stub1 : ChaincodeStub)
    (p : Option Bytes) :
    (∀ w c n m, AddContract scan stub [w, c, n, m] = (.ok p, stub1) →
      (∀ k, k ≠ c → stub1.state k = stub.state k) ∧
      stub1.getFault = stub.getFault ∧ stub1.putFault = stub.putFault) ∧
    (∀ c d ej, RegisterDocumentEvent scan stub [c, d, ej] = (.ok p, stub1) →
      (∀ k, k ≠ c → stub1.state k = stub.state k) ∧
      stub1.getFault = stub.getFault ∧ stub1.putFault = stub.putFault ∧
      ∃ K K2, stub.contractAt c = some K ∧ stub1.contractAt c = some K2 ∧
        K2.WorkflowId = K.WorkflowId ∧ K2.ContractName = K.ContractName ∧
        K2.ContractId = K.ContractId ∧
        K2.ParticipantRoleToInstanceMapping = K.ParticipantRoleToInstanceMapping ∧
        ∀ d2, d2 ≠ d → K2.Events.lookup d2 = K.Events.lookup d2) := by
  refine ⟨?_, ?_⟩
  · intro w c n m h
    obtain ⟨w1, c1, n1, m1, mapping, participants, hargs, -, -, -, -, -, -, hstub⟩ :=
      AddContract_inv scan stub stub1 _ p h
    simp only [List.cons.injEq, and_true] at hargs
    obtain ⟨rfl, rfl, rfl, rfl⟩ := hargs
    subst hstub
    refine ⟨?_, rfl, rfl⟩
    intro k hk
    simp [ChaincodeStub.store, hk]
  · intro c d ej h
    obtain ⟨K, K2, e, hK, -, -, hu, hK2⟩ := contractAt_step scan stub stub1 c d ej p h
    obtain ⟨c1, d1, ej1, e1, b, K', K2', hargs, -, -, -, -, -, -, -, hstub⟩ :=
      RegisterDocumentEvent_inv scan stub stub1 _ p h
    simp only [List.cons.injEq, and_true] at hargs
    obtain ⟨rfl, rfl, rfl⟩ := hargs
    refine ⟨?_, ?_, ?_, K, K2, hK, hK2, update_frame K K2 d e hu⟩
    · intro k hk
      simp [hstub, ChaincodeStub.store, hk]
    · rw [hstub]; rfl
    · rw [hstub]; rfl

/-- C18 at the sample ledger: the issue of `x` on contract `C1` leaves every other
entry (the template among them) and the other fields of the contract as they were. -/
theorem C18_witness :
    (∀ k, k ≠ "C1" → ledgerIssueX.state k = ledgerC1.state k) ∧
    ledgerIssueX.getFault = ledgerC1.getFault ∧ ledgerIssueX.putFault = ledgerC1.putFault ∧
    ∃ K K2, ledgerC1.contractAt "C1" = some K ∧ ledgerIssueX.contractAt "C1" = some K2 ∧
      K2.WorkflowId = K.WorkflowId ∧ K2.ContractName = K.ContractName ∧
      K2.ContractId = K.ContractId ∧
      K2.ParticipantRoleToInstanceMapping = K.ParticipantRoleToInstanceMapping ∧
      ∀ d2, d2 ≠ "x" → K2.Events.lookup d2 = K.Events.lookup d2 :=
  (C18_frame_of_successful_write sampleScan ledgerC1 ledgerIssueX none).2 "C1" "x"
    issueXText rfl

/-- C19: in every ledger reachable from a successful `AddContract` of contract `c` by
`RegisterDocumentEvent` calls (with any arguments, whatever their outcome), the contract
stored under `c` keeps the issue bookkeeping: the length of `Documents` is the total
number of events of type `Issue` across all lists in `Events`, every document id in
`Documents` has an `Issue` event in `Events` under that id, and every document id that
`DocTypeToDocIdMapping` maps to occurs in `Documents`. -/
theorem C19_issue_bookkeeping (scan : String → Bytes) (c : String)
    (stub : ChaincodeStub) (h : Reachable scan c stub) :
    ∃ K, stub.contractAt c = some K ∧
      K.Documents.elems.length = K.issueCount ∧
      (∀ d, d ∈ K.Documents.elems →
        ∃ e, e ∈ (K.eventsOf d).elems ∧ e.EventType = "Issue") ∧
      (∀ t x, K.DocTypeToDocIdMapping.lookup t = some x → x ∈ K.Documents.elems) :=
  Reachable_invariant scan c Contract.Bookkept
    (fun w i n participants => newContract_Bookkept w i n participants)
    (fun K K2 d e hu _ hK => update_Bookkept K K2 d e hu hK) stub h

/-- C19 at the sample ledger after the three sample calls (two issues and one
signature): two documents, two `Issue` events. -/
theorem C19_witness :
    (∃ K, ledgerC1Events.contractAt "C1" = some K ∧
      K.Documents.elems.length = K.issueCount ∧
      (∀ d, d ∈ K.Documents.elems →
        ∃ e, e ∈ (K.eventsOf d).elems ∧ e.EventType = "Issue") ∧
      (∀ t x, K.DocTypeToDocIdMapping.lookup t = some x → x ∈ K.Documents.elems)) ∧
    (ledgerC1Events.contractAt "C1").map (fun K => (K.Documents, K.issueCount))
      = some (some ["x", "y"], 2) :=
  ⟨C19_issue_bookkeeping sampleScan "C1" ledgerC1Events
    (Reachable.recorded _ ["C1", "x", signXText]
      (Reachable.recorded _ ["C1", "y", issueYText]
        (Reachable.recorded _ ["C1", "x", issueXText]
          (Reachable.created sampleLedger "WF1" "Acme" mapBothText rfl)))), rfl⟩

end ContractWorkflow
